import Mathlib

/-!
Verification of the BZYAgent generation-pipeline backend.

This file gives a shallow embedding, in Lean 4, of the pipeline code of
the repository (scheduling engine, time-allocation validator, the
reconciliation merge loop, the LLM client adapter's retry logic, the
multi-file block parser, the safe file writer, the job-state failure
transition, and the plan-parameter inference), together with theorems
settling the specification claims about those functions.

Python values flowing through the pipeline (parsed JSON) are modelled by
the inductive type JVal. Python dictionaries are association lists in
insertion order; Python's `isinstance(x, int)` is modelled as accepting
both int and bool values (bool is a subclass of int in Python, True
having the integer value 1 and False the value 0).
-/

/-- A Python/JSON value as it appears after json.loads: None, bool, int,
string, list or dict (association list in insertion order). Floats do
not occur in the inputs the claims quantify over and are omitted. -/
inductive JVal where
  | null
  | bool (b : Bool)
  | int (n : Int)
  | str (s : String)
  | list (xs : List JVal)
  | obj (fields : List (String × JVal))

/-- A Python dict with string keys, in insertion order. -/
abbrev JObj := List (String × JVal)

/-- Python dict .get(key): the first binding of the key, defaulting to None. -/
def dictGet : JObj → String → JVal
  | [], _ => JVal.null
  | (k', v) :: rest, k => if k' = k then v else dictGet rest k

/-- Python dict assignment d[k] = v: replace the first binding of an
existing key in place, otherwise append the new key at the end. -/
def dictSet (fs : JObj) (k : String) (v : JVal) : JObj :=
  match fs with
  | [] => [(k, v)]
  | (k', v') :: rest => if k' = k then (k', v) :: rest else (k', v') :: dictSet rest k v

/-- Python object .get(key) on an arbitrary value: succeeds on a dict,
raises AttributeError on anything else. -/
def attrGet (v : JVal) (k : String) : Except String JVal :=
  match v with
  | JVal.obj fs => Except.ok (dictGet fs k)
  | _ => Except.error "AttributeError: object has no attribute get"

/-- Python's isinstance(x, int) together with the integer value of x:
int values are themselves, bools count as integers 1 and 0 (bool is a
subclass of int); everything else is not an int instance. -/
def pyIntOf : JVal → Option Int
  | JVal.int n => some n
  | JVal.bool b => some (if b then 1 else 0)
  | _ => none

/-- Python truthiness of a value (used by the `or` chains in the source). -/
def pyTruthy : JVal → Bool
  | JVal.null => false
  | JVal.bool b => b
  | JVal.int n => n != 0
  | JVal.str s => s ≠ ""
  | JVal.list xs => !xs.isEmpty
  | JVal.obj fs => !fs.isEmpty

/-- Python `a or b`: a if a is truthy, else b. -/
def pyOr (a b : JVal) : JVal := if pyTruthy a then a else b

/-- Whitespace characters stripped by Python str.strip() (ASCII range). -/
def pyIsSpaceChar (c : Char) : Bool :=
  c = ' ' || c = '\t' || c = '\n' || c = '\r' || c = '\x0b' || c = '\x0c'

/-- Python str.strip(): remove leading and trailing whitespace. -/
def pyStrip (s : String) : String :=
  String.mk ((s.data.dropWhile pyIsSpaceChar).reverse.dropWhile pyIsSpaceChar).reverse

/-- Decimal digit run with optional single underscores between digits,
as accepted by Python's int(str) after sign handling. The boolean state
records whether the previous character was a digit. -/
def parseDigitsUnd : List Char → Bool → Nat → Option Nat
  | [], lastDigit, acc => if lastDigit then some acc else none
  | c :: rest, lastDigit, acc =>
    if c.isDigit then parseDigitsUnd rest true (acc * 10 + (c.toNat - 48))
    else if c = '_' then (if lastDigit then parseDigitsUnd rest false acc else none)
    else none

/-- Python int(s) on a string: strip whitespace, optional sign, decimal
digits with optional underscore separators; None when it would raise. -/
def pyStrToInt (s : String) : Option Int :=
  let l := ((s.data.dropWhile pyIsSpaceChar).reverse.dropWhile pyIsSpaceChar).reverse
  match l with
  | '+' :: rest => (parseDigitsUnd rest false 0).map Int.ofNat
  | '-' :: rest => (parseDigitsUnd rest false 0).map (fun n => -(n : Int))
  | _ => (parseDigitsUnd l false 0).map Int.ofNat

/-- Python int(x) applied to an arbitrary value: ints are themselves,
bools are 1 and 0, strings are parsed; everything else raises (None). -/
def pyToInt : JVal → Option Int
  | JVal.int n => some n
  | JVal.bool b => some (if b then 1 else 0)
  | JVal.str s => pyStrToInt s
  | _ => none

/-- _safe_int from utils/plan_params.py: None and bool map to None,
ints to themselves, strings via int(); anything else to None. -/
def safe_int : JVal → Option Int
  | JVal.bool _ => none
  | JVal.int n => some n
  | JVal.str s => pyStrToInt s
  | _ => none

/-! ## Scheduling engine (teaching_plan_service.py) -/

/-- _get_week_class_limit: week 1 uses first_week_classes, all other
weeks use classes_per_week. -/
def week_class_limit (week first_week_classes classes_per_week : Int) : Int :=
  if week = 1 then first_week_classes else classes_per_week

/-- The list lo, lo+1, ..., lo+n-1 (Python range(lo, lo+n) over ints). -/
def intRange (lo : Int) (n : Nat) : List Int :=
  (List.range n).map (fun (k : Nat) => lo + (k : Int))

/-- One entry of skip_slots as the source reads it: item.get('week')
converted by int(), and the `or` chain over the 'class', 'class_index'
and 'session' keys converted by int(); None when any step raises
(the source catches the exception and skips the entry). -/
def parse_skip_item (item : JVal) : Option (Int × Int) :=
  match item with
  | JVal.obj fs =>
    match pyToInt (dictGet fs "week") with
    | none => none
    | some w =>
      match pyToInt (pyOr (dictGet fs "class") (pyOr (dictGet fs "class_index") (dictGet fs "session"))) with
      | none => none
      | some i => some (w, i)
  | _ => none

/-- The skip set built identically at the start of build_schedule_frame
and count_available_slots: parsed entries kept when the week is in
1..total_weeks and the session index is within that week's capacity. -/
def compute_skip_set (total_weeks first_week_classes classes_per_week : Int)
    (skip_slots : List JVal) : List (Int × Int) :=
  skip_slots.filterMap (fun item =>
    match parse_skip_item item with
    | some (w, i) =>
      if 1 ≤ w ∧ w ≤ total_weeks ∧ 1 ≤ i ∧ i ≤ week_class_limit w first_week_classes classes_per_week
      then some (w, i) else none
    | none => none)

/-- One produced schedule slot: a 1-based contiguous order and a week. -/
structure ScheduleSlot where
  order : Int
  week : Int
deriving DecidableEq

/-- Inner loop of build_schedule_frame over the session indices of one
week: skip excluded pairs, append a slot with order len+1, and return
with the done flag as soon as the schedule reaches actual_classes. -/
def build_inner (w : Int) (skipSet : List (Int × Int)) (actual : Int) :
    List Int → List ScheduleSlot → List ScheduleSlot × Bool
  | [], acc => (acc, false)
  | i :: rest, acc =>
    if (w, i) ∈ skipSet then build_inner w skipSet actual rest acc
    else
      let acc2 := acc ++ [⟨(acc.length : Int) + 1, w⟩]
      if actual ≤ (acc2.length : Int) then (acc2, true)
      else build_inner w skipSet actual rest acc2

/-- Outer loop of build_schedule_frame over weeks 1..total_weeks,
propagating the early return out of the week loop. -/
def build_outer (skipSet : List (Int × Int)) (actual fwc cpw : Int) :
    List Int → List ScheduleSlot → List ScheduleSlot
  | [], acc => acc
  | w :: ws, acc =>
    let res := build_inner w skipSet actual (intRange 1 (week_class_limit w fwc cpw).toNat) acc
    if res.2 then res.1 else build_outer skipSet actual fwc cpw ws res.1

/-- build_schedule_frame from teaching_plan_service.py: guard on
non-positive parameters, clamp classes_per_week into [1,7] and
first_week_classes into [1, classes_per_week], build the skip set, then
fill slots in week-then-index order until actual_classes are placed. -/
def build_schedule_frame (total_weeks classes_per_week actual_classes first_week_classes : Int)
    (skip_slots : List JVal) : List ScheduleSlot :=
  if total_weeks < 1 ∨ classes_per_week < 1 then []
  else
    let cpw := max 1 (min 7 classes_per_week)
    let fwc := max 1 (min cpw first_week_classes)
    let skipSet := compute_skip_set total_weeks fwc cpw skip_slots
    build_outer skipSet actual_classes fwc cpw (intRange 1 total_weeks.toNat) []

/-- The available (week, session index) pairs of one week, in index
order: indices 1..limit with the skipped ones removed. -/
def week_available (w : Int) (skipSet : List (Int × Int)) (limitW : Int) : List (Int × Int) :=
  ((intRange 1 limitW.toNat).filter (fun i => decide ((w, i) ∉ skipSet))).map (fun i => (w, i))

/-- All available pairs over a list of weeks, in week-then-index order. -/
def available_pairs (skipSet : List (Int × Int)) (fwc cpw : Int) (weeks : List Int) :
    List (Int × Int) :=
  weeks.flatMap (fun w => week_available w skipSet (week_class_limit w fwc cpw))

/-- count_available_slots from teaching_plan_service.py: same guard,
clamping and skip set as build_schedule_frame, counting the non-skipped
(week, index) pairs of every week.  The source counts them in a double
loop; the count equals the length of the available pair list. -/
def count_available_slots (total_weeks classes_per_week first_week_classes : Int)
    (skip_slots : List JVal) : Int :=
  if total_weeks < 1 ∨ classes_per_week < 1 then 0
  else
    let cpw := max 1 (min 7 classes_per_week)
    let fwc := max 1 (min cpw first_week_classes)
    let skipSet := compute_skip_set total_weeks fwc cpw skip_slots
    ((available_pairs skipSet fwc cpw (intRange 1 total_weeks.toNat)).length : Int)

/-- The (week, index) pairs actually assigned by build_schedule_frame:
the first actual_classes available pairs (all of them when fewer are
available). -/
def assigned_pairs (total_weeks classes_per_week actual_classes first_week_classes : Int)
    (skip_slots : List JVal) : List (Int × Int) :=
  if total_weeks < 1 ∨ classes_per_week < 1 then []
  else
    let cpw := max 1 (min 7 classes_per_week)
    let fwc := max 1 (min cpw first_week_classes)
    let skipSet := compute_skip_set total_weeks fwc cpw skip_slots
    (available_pairs skipSet fwc cpw (intRange 1 total_weeks.toNat)).take actual_classes.toNat

/-- Slots produced for a pair list when the schedule already holds
startLen slots: the k-th pair becomes order startLen+k+1 with its week. -/
def assign_orders (startLen : Nat) : List (Int × Int) → List ScheduleSlot
  | [] => []
  | p :: ps => ⟨(startLen : Int) + 1, p.1⟩ :: assign_orders (startLen + 1) ps

example : build_schedule_frame 2 2 3 1 [] = [⟨1, 1⟩, ⟨2, 2⟩, ⟨3, 2⟩] := by decide

example : count_available_slots 18 2 1 [] = 35 := by decide

example :
    build_schedule_frame 2 2 3 1 [JVal.obj [("week", JVal.int 2), ("class", JVal.int 1)]]
      = [⟨1, 1⟩, ⟨2, 2⟩] := by decide

/-! ### Characterization of the scheduling loops -/

theorem assign_orders_append (L : Nat) (a b : List (Int × Int)) :
    assign_orders L (a ++ b) = assign_orders L a ++ assign_orders (L + a.length) b := by
  induction a generalizing L with
  | nil => simp [assign_orders]
  | cons p ps ih =>
    have h1 : (p :: ps) ++ b = p :: (ps ++ b) := rfl
    rw [h1]
    simp only [assign_orders, List.length_cons]
    rw [ih (L + 1), show L + (ps.length + 1) = L + 1 + ps.length by omega]
    rfl

theorem length_assign_orders (L : Nat) (ps : List (Int × Int)) :
    (assign_orders L ps).length = ps.length := by
  induction ps generalizing L with
  | nil => rfl
  | cons p ps ih => simp [assign_orders, ih]

theorem map_week_assign_orders (L : Nat) (ps : List (Int × Int)) :
    (assign_orders L ps).map ScheduleSlot.week = ps.map Prod.fst := by
  induction ps generalizing L with
  | nil => rfl
  | cons p ps ih => simp [assign_orders, ih]

theorem build_inner_eq (w : Int) (S : List (Int × Int)) (actual : Int) (idxs : List Int)
    (acc : List ScheduleSlot) (h : (acc.length : Int) < actual) :
    build_inner w S actual idxs acc =
      (acc ++ assign_orders acc.length
        (((idxs.filter (fun i => decide ((w, i) ∉ S))).map (fun i => (w, i))).take
          (actual - (acc.length : Int)).toNat),
       decide ((actual - (acc.length : Int)).toNat ≤
         (idxs.filter (fun i => decide ((w, i) ∉ S))).length)) := by
  induction idxs generalizing acc with
  | nil =>
    simp only [build_inner, List.filter_nil, List.map_nil, List.take_nil, List.length_nil,
      assign_orders, List.append_nil]
    rw [decide_eq_false (by omega : ¬ ((actual - (acc.length : Int)).toNat ≤ 0))]
  | cons i rest ih =>
    by_cases hs : (w, i) ∈ S
    · have hfilt : (fun i => decide ((w, i) ∉ S)) i = false := by simp [hs]
      simp only [build_inner, if_pos hs, List.filter_cons, hfilt, Bool.false_eq_true, if_false]
      exact ih acc h
    · have hfilt : (fun i => decide ((w, i) ∉ S)) i = true := by simp [hs]
      simp only [build_inner, if_neg hs, List.filter_cons, hfilt, if_true]
      by_cases hstop : actual ≤
          ((acc ++ [({ order := (acc.length : Int) + 1, week := w } : ScheduleSlot)]).length : Int)
      · have hlen : actual = (acc.length : Int) + 1 := by
          simp only [List.length_append, List.length_cons, List.length_nil] at hstop
          push_cast at hstop
          omega
        have hm : (actual - (acc.length : Int)).toNat = 1 := by omega
        rw [if_pos hstop, hm]
        simp only [List.map_cons, List.take_succ_cons, List.take_zero, assign_orders,
          Prod.mk.injEq]
        constructor
        · trivial
        · rw [decide_eq_true (by simp : 1 ≤
            (i :: List.filter (fun i => decide ((w, i) ∉ S)) rest).length)]
      · rw [if_neg hstop]
        have h2 : (((acc ++ [({ order := (acc.length : Int) + 1, week := w } : ScheduleSlot)]).length
            : Int)) < actual := by
          simp only [List.length_append, List.length_cons, List.length_nil] at hstop ⊢
          push_cast at hstop ⊢
          omega
        rw [ih _ h2]
        have hL : (acc ++ [({ order := (acc.length : Int) + 1, week := w } : ScheduleSlot)]).length
            = acc.length + 1 := by simp
        have hm : (actual - (acc.length : Int)).toNat
            = (actual - ((acc.length : Int) + 1)).toNat + 1 := by omega
        rw [Prod.mk.injEq]
        constructor
        · rw [hL, hm]
          simp only [List.map_cons, List.take_succ_cons, assign_orders]
          simp [List.append_assoc]
        · rw [hL, hm]
          simp only [List.length_cons, decide_eq_decide]
          push_cast
          omega

theorem build_inner_eq_week (w : Int) (S : List (Int × Int)) (actual lim : Int)
    (acc : List ScheduleSlot) (h : (acc.length : Int) < actual) :
    build_inner w S actual (intRange 1 lim.toNat) acc =
      (acc ++ assign_orders acc.length
        ((week_available w S lim).take (actual - (acc.length : Int)).toNat),
       decide ((actual - (acc.length : Int)).toNat ≤ (week_available w S lim).length)) := by
  rw [build_inner_eq w S actual _ acc h]
  simp only [week_available, List.length_map]

theorem build_outer_eq (S : List (Int × Int)) (actual fwc cpw : Int) (weeks : List Int)
    (acc : List ScheduleSlot) (h : (acc.length : Int) < actual) :
    build_outer S actual fwc cpw weeks acc =
      acc ++ assign_orders acc.length
        ((available_pairs S fwc cpw weeks).take (actual - (acc.length : Int)).toNat) := by
  induction weeks generalizing acc with
  | nil =>
    simp [build_outer, available_pairs, assign_orders]
  | cons w ws ih =>
    simp only [build_outer]
    rw [build_inner_eq_week w S actual _ acc h]
    have havail : available_pairs S fwc cpw (w :: ws)
        = week_available w S (week_class_limit w fwc cpw) ++ available_pairs S fwc cpw ws := by
      simp [available_pairs]
    rw [havail, List.take_append_eq_append_take]
    by_cases hflag : (actual - (acc.length : Int)).toNat ≤
        (week_available w S (week_class_limit w fwc cpw)).length
    · rw [decide_eq_true hflag, if_pos rfl]
      rw [Nat.sub_eq_zero_of_le hflag, List.take_zero, List.append_nil]
    · rw [decide_eq_false hflag, if_neg (by simp)]
      have htake : (week_available w S (week_class_limit w fwc cpw)).take
            (actual - (acc.length : Int)).toNat
          = week_available w S (week_class_limit w fwc cpw) :=
        List.take_of_length_le (by omega)
      rw [htake]
      have h2 : (((acc ++ assign_orders acc.length
          (week_available w S (week_class_limit w fwc cpw))).length : Int)) < actual := by
        simp only [List.length_append, length_assign_orders]
        push_cast
        omega
      rw [ih _ h2]
      have hlen2 : (acc ++ assign_orders acc.length
          (week_available w S (week_class_limit w fwc cpw))).length
          = acc.length + (week_available w S (week_class_limit w fwc cpw)).length := by
        simp [length_assign_orders]
      rw [hlen2]
      rw [assign_orders_append, ← List.append_assoc]
      have hm2 : (actual - ((acc.length
            + (week_available w S (week_class_limit w fwc cpw)).length : Nat) : Int)).toNat
          = (actual - (acc.length : Int)).toNat
            - (week_available w S (week_class_limit w fwc cpw)).length := by
        push_cast
        omega
      rw [hm2]

theorem build_schedule_frame_eq (tw cpw actual fwc : Int) (skip : List JVal)
    (ha : 1 ≤ actual) :
    build_schedule_frame tw cpw actual fwc skip
      = assign_orders 0 (assigned_pairs tw cpw actual fwc skip) := by
  unfold build_schedule_frame assigned_pairs
  by_cases hg : tw < 1 ∨ cpw < 1
  · simp [hg, assign_orders]
  · simp only [hg, if_false]
    rw [build_outer_eq _ _ _ _ _ [] (by simpa using ha)]
    simp

theorem length_intRange (lo : Int) (n : Nat) : (intRange lo n).length = n := by
  rw [intRange, List.length_map, List.length_range]

theorem mem_intRange {lo : Int} {n : Nat} {x : Int} :
    x ∈ intRange lo n ↔ lo ≤ x ∧ x < lo + (n : Int) := by
  constructor
  · intro hx
    rw [intRange, List.mem_map] at hx
    obtain ⟨k, hk, hke⟩ := hx
    rw [List.mem_range] at hk
    omega
  · intro hx
    rw [intRange, List.mem_map]
    refine ⟨(x - lo).toNat, ?_, by omega⟩
    rw [List.mem_range]
    omega

theorem pairwise_intRange (lo : Int) (n : Nat) : (intRange lo n).Pairwise (· < ·) := by
  rw [intRange, List.pairwise_map]
  exact (List.pairwise_lt_range n).imp (fun h => by omega)

theorem mem_week_available {p : Int × Int} {w : Int} {S : List (Int × Int)} {lim : Int} :
    p ∈ week_available w S lim ↔ p.1 = w ∧ p.2 ∈ intRange 1 lim.toNat ∧ p ∉ S := by
  simp only [week_available, List.mem_map, List.mem_filter, decide_eq_true_eq]
  constructor
  · rintro ⟨i, ⟨hi, hnot⟩, rfl⟩
    exact ⟨rfl, hi, hnot⟩
  · rintro ⟨h1, h2, h3⟩
    cases p with
    | mk a b =>
      simp only at h1 h2
      subst h1
      exact ⟨b, ⟨h2, h3⟩, rfl⟩

theorem mem_available_pairs {p : Int × Int} {S : List (Int × Int)} {fwc cpw : Int}
    {weeks : List Int} :
    p ∈ available_pairs S fwc cpw weeks
      ↔ p.1 ∈ weeks ∧ p.2 ∈ intRange 1 (week_class_limit p.1 fwc cpw).toNat ∧ p ∉ S := by
  simp only [available_pairs, List.mem_flatMap]
  constructor
  · rintro ⟨w, hw, hp⟩
    obtain ⟨h1, h2, h3⟩ := mem_week_available.1 hp
    subst h1
    exact ⟨hw, h2, h3⟩
  · rintro ⟨h1, h2, h3⟩
    exact ⟨p.1, h1, mem_week_available.2 ⟨rfl, h2, h3⟩⟩

theorem pairwise_fst_le_available (S : List (Int × Int)) (fwc cpw : Int) (weeks : List Int)
    (hw : weeks.Pairwise (· < ·)) :
    (available_pairs S fwc cpw weeks).Pairwise (fun a b => a.1 ≤ b.1) := by
  induction weeks with
  | nil => simp [available_pairs]
  | cons w ws ih =>
    rw [show available_pairs S fwc cpw (w :: ws)
        = week_available w S (week_class_limit w fwc cpw) ++ available_pairs S fwc cpw ws from by
      simp [available_pairs]]
    rcases List.pairwise_cons.1 hw with ⟨hforall, hws⟩
    rw [List.pairwise_append]
    refine ⟨?_, ih hws, ?_⟩
    · rw [week_available, List.pairwise_map]
      induction (intRange 1 (week_class_limit w fwc cpw).toNat).filter
          (fun i => decide ((w, i) ∉ S)) with
      | nil => exact List.Pairwise.nil
      | cons x xs ihx => exact List.Pairwise.cons (fun y _ => le_refl w) ihx
    · intro a ha b hb
      have ha1 := (mem_week_available.1 ha).1
      have hb1 := (mem_available_pairs.1 hb).1
      have := hforall b.1 hb1
      omega

theorem countP_fst_available_le (S : List (Int × Int)) (fwc cpw : Int) (weeks : List Int)
    (hw : weeks.Pairwise (· < ·)) (w : Int) :
    (available_pairs S fwc cpw weeks).countP (fun p => decide (p.1 = w))
      ≤ (week_class_limit w fwc cpw).toNat := by
  induction weeks with
  | nil => simp [available_pairs]
  | cons w' ws ih =>
    rcases List.pairwise_cons.1 hw with ⟨hforall, hws⟩
    rw [show available_pairs S fwc cpw (w' :: ws)
        = week_available w' S (week_class_limit w' fwc cpw) ++ available_pairs S fwc cpw ws from by
      simp [available_pairs]]
    rw [List.countP_append]
    by_cases hww : w' = w
    · subst hww
      have hrest : (available_pairs S fwc cpw ws).countP (fun p => decide (p.1 = w')) = 0 := by
        rw [List.countP_eq_zero]
        intro a ha
        have h1 := (mem_available_pairs.1 ha).1
        have := hforall a.1 h1
        simp only [decide_eq_true_eq]
        omega
      rw [hrest, Nat.add_zero]
      calc (week_available w' S (week_class_limit w' fwc cpw)).countP (fun p => decide (p.1 = w'))
          ≤ (week_available w' S (week_class_limit w' fwc cpw)).length := List.countP_le_length _
        _ ≤ (week_class_limit w' fwc cpw).toNat := by
            rw [week_available, List.length_map]
            calc ((intRange 1 (week_class_limit w' fwc cpw).toNat).filter
                  (fun i => decide ((w', i) ∉ S))).length
                ≤ (intRange 1 (week_class_limit w' fwc cpw).toNat).length :=
                  List.length_filter_le _ _
              _ = (week_class_limit w' fwc cpw).toNat := length_intRange 1 _
    · have hchunk : (week_available w' S (week_class_limit w' fwc cpw)).countP
          (fun p => decide (p.1 = w)) = 0 := by
        rw [List.countP_eq_zero]
        intro a ha
        have h1 := (mem_week_available.1 ha).1
        simp only [decide_eq_true_eq]
        omega
      rw [hchunk, Nat.zero_add]
      exact ih hws

/-- The pair (w, i) is denoted by some entry of skip_slots, read the way
the source reads entries. -/
def skip_slots_member (skip_slots : List JVal) (w i : Int) : Prop :=
  ∃ item ∈ skip_slots, parse_skip_item item = some (w, i)

theorem mem_compute_skip_set_of {tw fwc cpw : Int} {skip : List JVal} {w i : Int}
    (hmem : skip_slots_member skip w i) (h1 : 1 ≤ w) (h2 : w ≤ tw) (h3 : 1 ≤ i)
    (h4 : i ≤ week_class_limit w fwc cpw) : (w, i) ∈ compute_skip_set tw fwc cpw skip := by
  obtain ⟨item, hit, hparse⟩ := hmem
  rw [compute_skip_set, List.mem_filterMap]
  refine ⟨item, hit, ?_⟩
  rw [hparse]
  simp [h1, h2, h3, h4]

theorem week_mem_assign_orders {L : Nat} {ps : List (Int × Int)} {s : ScheduleSlot}
    (hs : s ∈ assign_orders L ps) : ∃ p ∈ ps, s.week = p.1 := by
  induction ps generalizing L with
  | nil => simp [assign_orders] at hs
  | cons p ps ih =>
    rw [assign_orders, List.mem_cons] at hs
    rcases hs with hs | hs
    · exact ⟨p, List.mem_cons_self _ _, by rw [hs]⟩
    · obtain ⟨q, hq, hw⟩ := ih hs
      exact ⟨q, List.mem_cons_of_mem _ hq, hw⟩

theorem pairwise_week_assign_orders {L : Nat} {ps : List (Int × Int)}
    (hp : ps.Pairwise (fun a b => a.1 ≤ b.1)) :
    (assign_orders L ps).Pairwise (fun a b => a.week ≤ b.week) := by
  induction ps generalizing L with
  | nil => exact List.Pairwise.nil
  | cons p ps ih =>
    rcases List.pairwise_cons.1 hp with ⟨hforall, hps⟩
    rw [assign_orders]
    refine List.Pairwise.cons ?_ (ih hps)
    intro s hs
    obtain ⟨q, hq, hw⟩ := week_mem_assign_orders hs
    have := hforall q hq
    simp only [hw]
    exact this

theorem countP_week_assign_orders (L : Nat) (ps : List (Int × Int)) (w : Int) :
    (assign_orders L ps).countP (fun s => decide (s.week = w))
      = ps.countP (fun p => decide (p.1 = w)) := by
  induction ps generalizing L with
  | nil => rfl
  | cons p ps ih =>
    rw [assign_orders, List.countP_cons, List.countP_cons, ih (L + 1)]

theorem intRange_zero (lo : Int) : intRange lo 0 = [] := by
  rw [intRange, List.range_zero, List.map_nil]

theorem intRange_succ (lo : Int) (n : Nat) : intRange lo (n + 1) = lo :: intRange (lo + 1) n := by
  rw [intRange, List.range_succ_eq_map]
  simp only [List.map_cons, Nat.cast_zero, add_zero, List.map_map, intRange]
  congr 1
  apply List.map_congr_left
  intro k _
  simp only [Function.comp_apply]
  push_cast
  ring

theorem map_order_assign_orders (L : Nat) (ps : List (Int × Int)) :
    (assign_orders L ps).map ScheduleSlot.order = intRange ((L : Int) + 1) ps.length := by
  induction ps generalizing L with
  | nil => rw [assign_orders, List.map_nil, List.length_nil, intRange_zero]
  | cons p ps ih =>
    have hL : (((L + 1 : Nat)) : Int) + 1 = (L : Int) + 1 + 1 := by push_cast; ring
    rw [assign_orders, List.map_cons, List.length_cons, intRange_succ, ih (L + 1), hL]

/-- C10: for actual_classes >= 1 and arbitrary total_weeks,
classes_per_week, first_week_classes and skip_slots, the number of slots
returned by build_schedule_frame equals the minimum of actual_classes
and count_available_slots on the same inputs (both functions clamp
classes_per_week into [1,7] and first_week_classes into
[1, classes_per_week] and ignore malformed or out-of-capacity skip_slots
entries identically). -/
theorem claim_C10 (total_weeks classes_per_week first_week_classes actual_classes : Int)
    (skip_slots : List JVal) (ha : 1 ≤ actual_classes) :
    ((build_schedule_frame total_weeks classes_per_week actual_classes first_week_classes
        skip_slots).length : Int)
      = min actual_classes
          (count_available_slots total_weeks classes_per_week first_week_classes skip_slots) := by
  rw [build_schedule_frame_eq _ _ _ _ _ ha, length_assign_orders]
  unfold assigned_pairs count_available_slots
  by_cases hg : total_weeks < 1 ∨ classes_per_week < 1
  · simp only [hg, if_true]
    simp only [List.length_nil, Nat.cast_zero]
    omega
  · simp only [hg, if_false]
    rw [List.length_take]
    have h1 : ((actual_classes.toNat : Int)) = actual_classes := Int.toNat_of_nonneg (by omega)
    rw [Nat.cast_min, h1]

/-- C10 witness: at total_weeks 2, classes_per_week 2,
first_week_classes 1, actual_classes 5 and an empty skip list, the frame
length equals min 5 3 = 3. -/
theorem claim_C10_witness :
    (1 : Int) ≤ 5
    ∧ ((build_schedule_frame 2 2 5 1 []).length : Int)
        = min 5 (count_available_slots 2 2 1 []) :=
  ⟨by decide, claim_C10 2 2 1 5 [] (by decide)⟩

/-- C2: for valid scheduling inputs whose available slot count covers
actual_classes, build_schedule_frame returns exactly actual_classes
slots, with order values exactly 1..actual_classes in sequence order,
non-decreasing week values within 1..total_weeks respecting each week's
capacity (first_week_classes in week 1, classes_per_week otherwise), and
no assigned (week, within-week session index) pair is denoted by any
skip_slots entry. -/
theorem claim_C2 (total_weeks classes_per_week first_week_classes actual_classes : Int)
    (skip_slots : List JVal)
    (htw : 1 ≤ total_weeks) (hcpw1 : 1 ≤ classes_per_week) (hcpw7 : classes_per_week ≤ 7)
    (hfwc1 : 1 ≤ first_week_classes) (hfwc2 : first_week_classes ≤ classes_per_week)
    (ha : 1 ≤ actual_classes)
    (hcount : actual_classes
      ≤ count_available_slots total_weeks classes_per_week first_week_classes skip_slots) :
    build_schedule_frame total_weeks classes_per_week actual_classes first_week_classes skip_slots
      = assign_orders 0
          (assigned_pairs total_weeks classes_per_week actual_classes first_week_classes skip_slots)
    ∧ ((build_schedule_frame total_weeks classes_per_week actual_classes first_week_classes
          skip_slots).length : Int) = actual_classes
    ∧ (build_schedule_frame total_weeks classes_per_week actual_classes first_week_classes
        skip_slots).map ScheduleSlot.order = intRange 1 actual_classes.toNat
    ∧ (build_schedule_frame total_weeks classes_per_week actual_classes first_week_classes
        skip_slots).Pairwise (fun a b => a.week ≤ b.week)
    ∧ (∀ s ∈ build_schedule_frame total_weeks classes_per_week actual_classes first_week_classes
        skip_slots, 1 ≤ s.week ∧ s.week ≤ total_weeks)
    ∧ (∀ w : Int, (((build_schedule_frame total_weeks classes_per_week actual_classes
          first_week_classes skip_slots).filter (fun s => decide (s.week = w))).length : Int)
        ≤ week_class_limit w first_week_classes classes_per_week)
    ∧ (∀ p ∈ assigned_pairs total_weeks classes_per_week actual_classes first_week_classes
        skip_slots, ¬ skip_slots_member skip_slots p.1 p.2) := by
  have hg : ¬ (total_weeks < 1 ∨ classes_per_week < 1) := by omega
  have hclampc : max 1 (min 7 classes_per_week) = classes_per_week := by omega
  have hclampf : max 1 (min classes_per_week first_week_classes) = first_week_classes := by omega
  have hpairs : assigned_pairs total_weeks classes_per_week actual_classes first_week_classes
      skip_slots
      = (available_pairs
          (compute_skip_set total_weeks first_week_classes classes_per_week skip_slots)
          first_week_classes classes_per_week
          (intRange 1 total_weeks.toNat)).take actual_classes.toNat := by
    unfold assigned_pairs
    simp only [hg, if_false]
    rw [hclampc, hclampf]
  have hcnt : count_available_slots total_weeks classes_per_week first_week_classes skip_slots
      = ((available_pairs
          (compute_skip_set total_weeks first_week_classes classes_per_week skip_slots)
          first_week_classes classes_per_week
          (intRange 1 total_weeks.toNat)).length : Int) := by
    unfold count_available_slots
    simp only [hg, if_false]
    rw [hclampc, hclampf]
  have hframe := build_schedule_frame_eq total_weeks classes_per_week actual_classes
    first_week_classes skip_slots ha
  have hlenavail : actual_classes.toNat
      ≤ (available_pairs
          (compute_skip_set total_weeks first_week_classes classes_per_week skip_slots)
          first_week_classes classes_per_week (intRange 1 total_weeks.toNat)).length := by
    rw [hcnt] at hcount
    omega
  have hlenpairs : (assigned_pairs total_weeks classes_per_week actual_classes first_week_classes
      skip_slots).length = actual_classes.toNat := by
    rw [hpairs, List.length_take]
    omega
  have hsub : (assigned_pairs total_weeks classes_per_week actual_classes first_week_classes
        skip_slots).Sublist
      (available_pairs
        (compute_skip_set total_weeks first_week_classes classes_per_week skip_slots)
        first_week_classes classes_per_week (intRange 1 total_weeks.toNat)) := by
    rw [hpairs]
    exact List.take_sublist _ _
  have hmemavail : ∀ p ∈ assigned_pairs total_weeks classes_per_week actual_classes
      first_week_classes skip_slots,
      p.1 ∈ intRange 1 total_weeks.toNat
      ∧ p.2 ∈ intRange 1 (week_class_limit p.1 first_week_classes classes_per_week).toNat
      ∧ p ∉ compute_skip_set total_weeks first_week_classes classes_per_week skip_slots := by
    intro p hp
    exact mem_available_pairs.1 (hsub.mem hp)
  refine ⟨hframe, ?_, ?_, ?_, ?_, ?_, ?_⟩
  · rw [hframe, length_assign_orders, hlenpairs]
    omega
  · rw [hframe, map_order_assign_orders, hlenpairs]
    norm_num
  · rw [hframe]
    apply pairwise_week_assign_orders
    apply List.Pairwise.sublist hsub
    exact pairwise_fst_le_available _ _ _ _ (pairwise_intRange 1 total_weeks.toNat)
  · intro s hs
    rw [hframe] at hs
    obtain ⟨p, hp, hw⟩ := week_mem_assign_orders hs
    obtain ⟨h1, _, _⟩ := hmemavail p hp
    rw [mem_intRange] at h1
    constructor
    · omega
    · rw [hw]
      omega
  · intro w
    rw [hframe]
    rw [← List.countP_eq_length_filter, countP_week_assign_orders]
    have hle : (assigned_pairs total_weeks classes_per_week actual_classes first_week_classes
        skip_slots).countP (fun p => decide (p.1 = w))
        ≤ (week_class_limit w first_week_classes classes_per_week).toNat := by
      calc (assigned_pairs total_weeks classes_per_week actual_classes first_week_classes
            skip_slots).countP (fun p => decide (p.1 = w))
          ≤ (available_pairs
              (compute_skip_set total_weeks first_week_classes classes_per_week skip_slots)
              first_week_classes classes_per_week (intRange 1 total_weeks.toNat)).countP
              (fun p => decide (p.1 = w)) := hsub.countP_le _
        _ ≤ (week_class_limit w first_week_classes classes_per_week).toNat :=
            countP_fst_available_le _ _ _ _ (pairwise_intRange 1 total_weeks.toNat) w
    have hlim : 1 ≤ week_class_limit w first_week_classes classes_per_week := by
      rw [week_class_limit]
      by_cases hw1 : w = 1 <;> simp [hw1] <;> omega
    omega
  · intro p hp hmem
    obtain ⟨h1, h2, h3⟩ := hmemavail p hp
    rw [mem_intRange] at h1 h2
    apply h3
    have hlim : 1 ≤ week_class_limit p.1 first_week_classes classes_per_week := by
      rw [week_class_limit]
      by_cases hw1 : p.1 = 1 <;> simp [hw1] <;> omega
    have := @mem_compute_skip_set_of total_weeks first_week_classes classes_per_week
      _ _ _ hmem (by omega) (by omega) (by omega) (by omega)
    simpa using this

/-- C2 witness: the spec's scenario total_weeks 18, classes_per_week 2,
first_week_classes 1, actual_classes 18, empty skip list (35 available
slots cover 18 classes). -/
theorem claim_C2_witness :
    (1 : Int) ≤ 18 ∧ (18 : Int) ≤ count_available_slots 18 2 1 []
    ∧ ((build_schedule_frame 18 2 18 1 []).length : Int) = 18 :=
  ⟨by decide, by decide, (claim_C2 18 2 1 18 [] (by decide) (by decide) (by decide) (by decide)
    (by decide) (by decide) (by decide)).2.1⟩

/-! ## Time-allocation validator (ai_service.py, validate_time_allocation) -/

/-- The time value of one new_lessons entry: item.get("time") when the
entry is a dict and the value is an int instance (Python view), else None. -/
def item_time (item : JVal) : Option Int :=
  match item with
  | JVal.obj fs => pyIntOf (dictGet fs "time")
  | _ => none

/-- The per-item loop of validate_time_allocation: the first failure
reason, or the sum of the time values. -/
def sum_new_lesson_times : List JVal → Except (Bool × String) Int
  | [] => Except.ok 0
  | item :: rest =>
    match item with
    | JVal.obj fs =>
      match pyIntOf (dictGet fs "time") with
      | some t =>
        if t ≤ 0 then Except.error (false, "new_lessons.time 必须为正整数")
        else (sum_new_lesson_times rest).map (fun s => t + s)
      | none => Except.error (false, "new_lessons.time 必须为正整数")
    | _ => Except.error (false, "new_lessons 存在非对象项")

/-- validate_time_allocation from ai_service.py: checks the hours
parameter, review_time being an int in [5,15], new_lessons being a list
of 3 to 5 entries each a dict with a positive int time, and the
time-budget equation review_time + sum + 10 + 5 == hours * 40. -/
def validate_time_allocation (lesson_plan_data : JObj) (hours : Int) : Bool × String :=
  if hours ≤ 0 then (false, "无效的学时参数")
  else
    let total_minutes := hours * 40
    match pyIntOf (dictGet lesson_plan_data "review_time") with
    | none => (false, "review_time 不在 5-15 分钟范围内")
    | some rt =>
      if ¬ (5 ≤ rt ∧ rt ≤ 15) then (false, "review_time 不在 5-15 分钟范围内")
      else
        match dictGet lesson_plan_data "new_lessons" with
        | JVal.list ls =>
          if ¬ (3 ≤ ls.length ∧ ls.length ≤ 5) then (false, "new_lessons 数量不符合 3-5 项要求")
          else
            match sum_new_lesson_times ls with
            | Except.error e => e
            | Except.ok s =>
              if rt + s + 10 + 5 ≠ total_minutes then (false, "时间分配总和不匹配")
              else (true, "ok")
        | _ => (false, "new_lessons 数量不符合 3-5 项要求")

example :
    validate_time_allocation
      [("review_time", JVal.int 10),
       ("new_lessons", JVal.list
         [JVal.obj [("content", JVal.str "a"), ("time", JVal.int 50)],
          JVal.obj [("content", JVal.str "b"), ("time", JVal.int 60)],
          JVal.obj [("content", JVal.str "c"), ("time", JVal.int 25)]])] 4
      = (true, "ok") := by decide

example :
    validate_time_allocation
      [("review_time", JVal.int 10),
       ("new_lessons", JVal.list
         [JVal.obj [("content", JVal.str "a"), ("time", JVal.int 50)],
          JVal.obj [("content", JVal.str "b"), ("time", JVal.int 85)]])] 4
      = (false, "new_lessons 数量不符合 3-5 项要求") := by decide


theorem sum_new_lesson_times_of_forall (ls : List JVal)
    (h : ∀ it ∈ ls, ∃ t, item_time it = some t ∧ 0 < t) :
    sum_new_lesson_times ls
      = Except.ok ((ls.map (fun it => (item_time it).getD 0)).sum) := by
  induction ls with
  | nil => rfl
  | cons item rest ih =>
    obtain ⟨t, ht, htpos⟩ := h item (List.mem_cons_self _ _)
    have hrest := ih (fun it hit => h it (List.mem_cons_of_mem _ hit))
    match item, ht with
    | JVal.obj fs, ht =>
      rw [item_time] at ht
      rw [sum_new_lesson_times, ht]
      simp only []
      rw [if_neg (by omega : ¬ t ≤ 0), hrest]
      simp only [Except.map, List.map_cons, List.sum_cons, item_time, ht, Option.getD_some]

theorem forall_of_sum_new_lesson_times {ls : List JVal} {s : Int}
    (h : sum_new_lesson_times ls = Except.ok s) :
    ∀ it ∈ ls, ∃ t, item_time it = some t ∧ 0 < t := by
  induction ls generalizing s with
  | nil => intro it hit; simp at hit
  | cons item rest ih =>
    intro it hit
    match item with
    | JVal.obj fs =>
      rw [sum_new_lesson_times] at h
      match hto : pyIntOf (dictGet fs "time") with
      | some t =>
        rw [hto] at h
        simp only [] at h
        by_cases htpos : t ≤ 0
        · rw [if_pos htpos] at h
          exact absurd h (by simp)
        · rw [if_neg htpos] at h
          match hrest : sum_new_lesson_times rest with
          | Except.ok s' =>
            rcases List.mem_cons.1 hit with rfl | hit'
            · exact ⟨t, by rw [item_time, hto], by omega⟩
            · exact ih hrest it hit'
          | Except.error e =>
            rw [hrest] at h
            simp only [Except.map] at h
            exact Except.noConfusion h
      | none =>
        rw [hto] at h
        simp only [] at h
        exact Except.noConfusion h
    | JVal.null =>
      simp only [sum_new_lesson_times] at h
      exact Except.noConfusion h
    | JVal.bool b =>
      simp only [sum_new_lesson_times] at h
      exact Except.noConfusion h
    | JVal.int n =>
      simp only [sum_new_lesson_times] at h
      exact Except.noConfusion h
    | JVal.str str =>
      simp only [sum_new_lesson_times] at h
      exact Except.noConfusion h
    | JVal.list xs =>
      simp only [sum_new_lesson_times] at h
      exact Except.noConfusion h

theorem sum_new_lesson_times_error_fst {ls : List JVal} {e : Bool × String}
    (h : sum_new_lesson_times ls = Except.error e) : e.1 = false := by
  induction ls generalizing e with
  | nil => simp [sum_new_lesson_times] at h
  | cons item rest ih =>
    match item with
    | JVal.obj fs =>
      rw [sum_new_lesson_times] at h
      match hto : pyIntOf (dictGet fs "time") with
      | some t =>
        rw [hto] at h
        simp only [] at h
        by_cases htpos : t ≤ 0
        · rw [if_pos htpos] at h
          simp only [Except.error.injEq] at h
          rw [← h]
        · rw [if_neg htpos] at h
          match hrest : sum_new_lesson_times rest with
          | Except.ok s' =>
            rw [hrest] at h
            simp only [Except.map] at h
            exact Except.noConfusion h
          | Except.error e' =>
            rw [hrest] at h
            simp only [Except.map, Except.error.injEq] at h
            rw [← h]
            exact ih hrest
      | none =>
        rw [hto] at h
        simp only [Except.error.injEq] at h
        rw [← h]
    | JVal.null =>
      simp only [sum_new_lesson_times, Except.error.injEq] at h
      rw [← h]
    | JVal.bool b =>
      simp only [sum_new_lesson_times, Except.error.injEq] at h
      rw [← h]
    | JVal.int n =>
      simp only [sum_new_lesson_times, Except.error.injEq] at h
      rw [← h]
    | JVal.str str =>
      simp only [sum_new_lesson_times, Except.error.injEq] at h
      rw [← h]
    | JVal.list xs =>
      simp only [sum_new_lesson_times, Except.error.injEq] at h
      rw [← h]

/-- The success condition of claim C1, written from the claim's words:
review_time an integer in [5,15], new_lessons a list of 3 to 5 entries
each an object with a positive integer time, and the time-budget
equation holding exactly. -/
def c1_success_condition (d : JObj) (hours : Int) : Prop :=
  ∃ rt, pyIntOf (dictGet d "review_time") = some rt ∧ 5 ≤ rt ∧ rt ≤ 15
    ∧ ∃ ls, dictGet d "new_lessons" = JVal.list ls ∧ 3 ≤ ls.length ∧ ls.length ≤ 5
      ∧ (∀ it ∈ ls, ∃ t, item_time it = some t ∧ 0 < t)
      ∧ rt + (ls.map (fun it => (item_time it).getD 0)).sum + 10 + 5 = hours * 40

/-- The conclusion of claim C1 at one input: success exactly under the
claim's condition, and an out-of-range new_lessons count (with a valid
review_time) yields the count reason regardless of the sum equation. -/
def c1_conclusion (d : JObj) (hours : Int) : Prop :=
  ((validate_time_allocation d hours).1 = true ↔ c1_success_condition d hours)
  ∧ (∀ rt, pyIntOf (dictGet d "review_time") = some rt → 5 ≤ rt → rt ≤ 15 →
      (∀ ls, dictGet d "new_lessons" = JVal.list ls → ¬ (3 ≤ ls.length ∧ ls.length ≤ 5)) →
      validate_time_allocation d hours = (false, "new_lessons 数量不符合 3-5 项要求"))

/-- C1: for integer hours > 0, validate_time_allocation succeeds exactly
when review_time is an integer in [5,15], new_lessons is a list of 3 to
5 objects each holding a positive integer time, and review_time + sum of
times + 10 + 5 equals hours * 40; otherwise it fails with the reason of
the first violated condition, and an out-of-range count fails with the
count reason without evaluating the sum equation. -/
theorem claim_C1 (d : JObj) (hours : Int) (hh : 0 < hours) : c1_conclusion d hours := by
  have hhours : ¬ (hours ≤ 0) := by omega
  constructor
  · rw [c1_success_condition, validate_time_allocation, if_neg hhours]
    cases hrt : pyIntOf (dictGet d "review_time") with
    | none =>
      simp only []
      constructor
      · intro h
        exact absurd h (by simp)
      · rintro ⟨rt, hrt', _⟩
        exact Option.noConfusion hrt'
    | some rt =>
      simp only []
      by_cases hrange : 5 ≤ rt ∧ rt ≤ 15
      · rw [if_neg (not_not_intro hrange)]
        cases hnl : dictGet d "new_lessons" with
        | list ls =>
          simp only []
          by_cases hcnt : 3 ≤ ls.length ∧ ls.length ≤ 5
          · rw [if_neg (not_not_intro hcnt)]
            cases hsum : sum_new_lesson_times ls with
            | error e =>
              simp only []
              have hfst := sum_new_lesson_times_error_fst hsum
              constructor
              · intro h
                rw [hfst] at h
                exact absurd h (by simp)
              · rintro ⟨rt', hrt', _, _, ls', hls', _, _, hall, _⟩
                cases hls'
                have hok := sum_new_lesson_times_of_forall ls hall
                rw [hsum] at hok
                exact Except.noConfusion hok
            | ok s =>
              simp only []
              have hall := forall_of_sum_new_lesson_times hsum
              have hs : s = (ls.map (fun it => (item_time it).getD 0)).sum := by
                have hok := sum_new_lesson_times_of_forall ls hall
                rw [hsum] at hok
                exact Except.ok.inj hok
              by_cases heq : rt + s + 10 + 5 ≠ hours * 40
              · rw [if_pos heq]
                constructor
                · intro h
                  exact absurd h (by simp)
                · rintro ⟨rt', hrt', _, _, ls', hls', _, _, _, hbudget⟩
                  cases Option.some.inj hrt'
                  cases hls'
                  rw [← hs] at hbudget
                  omega
              · rw [if_neg heq]
                constructor
                · intro _
                  exact ⟨rt, rfl, hrange.1, hrange.2, ls, rfl, hcnt.1, hcnt.2, hall, by
                    rw [← hs]; omega⟩
                · intro _
                  rfl
          · rw [if_pos hcnt]
            constructor
            · intro h
              exact absurd h (by simp)
            · rintro ⟨rt', hrt', _, _, ls', hls', hc1, hc2, _⟩
              cases hls'
              exact (hcnt ⟨hc1, hc2⟩).elim
        | null =>
          constructor
          · intro h
            exact absurd h (by simp)
          · rintro ⟨rt', hrt', _, _, ls', hls', _⟩
            exact JVal.noConfusion hls'
        | bool b =>
          constructor
          · intro h
            exact absurd h (by simp)
          · rintro ⟨rt', hrt', _, _, ls', hls', _⟩
            exact JVal.noConfusion hls'
        | int n =>
          constructor
          · intro h
            exact absurd h (by simp)
          · rintro ⟨rt', hrt', _, _, ls', hls', _⟩
            exact JVal.noConfusion hls'
        | str str =>
          constructor
          · intro h
            exact absurd h (by simp)
          · rintro ⟨rt', hrt', _, _, ls', hls', _⟩
            exact JVal.noConfusion hls'
        | obj fs =>
          constructor
          · intro h
            exact absurd h (by simp)
          · rintro ⟨rt', hrt', _, _, ls', hls', _⟩
            exact JVal.noConfusion hls'
      · rw [if_pos hrange]
        constructor
        · intro h
          exact absurd h (by simp)
        · rintro ⟨rt', hrt', h1, h2, _⟩
          cases Option.some.inj hrt'
          exact (hrange ⟨h1, h2⟩).elim
  · intro rt hrt h5 h15 hcount
    rw [validate_time_allocation, if_neg hhours, hrt]
    simp only []
    rw [if_neg (not_not_intro ⟨h5, h15⟩)]
    cases hnl : dictGet d "new_lessons" with
    | list ls =>
      simp only []
      rw [if_pos (hcount ls hnl)]
    | null => rfl
    | bool b => rfl
    | int n => rfl
    | str str => rfl
    | obj fs => rfl

/-- C1 witness: the spec scenario with hours 4 and times 50, 60, 25. -/
theorem claim_C1_witness :
    (0 : Int) < 4
    ∧ c1_conclusion
        [("review_time", JVal.int 10),
         ("new_lessons", JVal.list
           [JVal.obj [("content", JVal.str "a"), ("time", JVal.int 50)],
            JVal.obj [("content", JVal.str "b"), ("time", JVal.int 60)],
            JVal.obj [("content", JVal.str "c"), ("time", JVal.int 25)]])] 4 :=
  ⟨by decide, claim_C1 _ 4 (by decide)⟩

/-! ## Reconciliation merge and loop (routers/lesson_plan_api.py) -/

theorem dictGet_dictSet_self (fs : JObj) (k : String) (v : JVal) :
    dictGet (dictSet fs k v) k = v := by
  induction fs with
  | nil => simp [dictSet, dictGet]
  | cons p rest ih =>
    obtain ⟨k', v'⟩ := p
    simp only [dictSet]
    by_cases hk : k' = k
    · rw [if_pos hk]
      simp only [dictGet]
      rw [if_pos hk]
    · rw [if_neg hk]
      simp only [dictGet]
      rw [if_neg hk]
      exact ih

theorem dictGet_dictSet_ne (fs : JObj) (k k' : String) (v : JVal) (h : k' ≠ k) :
    dictGet (dictSet fs k v) k' = dictGet fs k' := by
  have hkk : ¬ (k = k') := fun he => h (Eq.symm he)
  induction fs with
  | nil =>
    simp only [dictSet, dictGet]
    rw [if_neg hkk]
  | cons p rest ih =>
    obtain ⟨k0, v0⟩ := p
    simp only [dictSet]
    by_cases hk : k0 = k
    · subst hk
      rw [if_pos rfl]
      simp only [dictGet]
      rw [if_neg hkk, if_neg hkk]
    · rw [if_neg hk]
      simp only [dictGet]
      by_cases hk' : k0 = k'
      · rw [if_pos hk', if_pos hk']
      · rw [if_neg hk', if_neg hk']
        exact ih

/-- One step of the merge loop of generate_lesson_plan_stream: for a data
item and (when the index is within the correction response's list) the
corresponding response entry, the response entry's time value overwrites
the item's time field only when it is an int instance; a non-int time
leaves the item unchanged, and a non-dict response entry raises
(AttributeError in the source), as does a non-dict data item when an int
time is about to be assigned (TypeError in the source). -/
def merge_lesson_items : List JVal → List JVal → Except String (List JVal)
  | [], _ => Except.ok []
  | item :: drest, [] => (merge_lesson_items drest []).map (fun r => item :: r)
  | item :: drest, a :: arest =>
    match a with
    | JVal.obj afs =>
      match pyIntOf (dictGet afs "time") with
      | some _ =>
        match item with
        | JVal.obj ifs =>
          (merge_lesson_items drest arest).map
            (fun r => JVal.obj (dictSet ifs "time" (dictGet afs "time")) :: r)
        | _ => Except.error "TypeError: item does not support item assignment"
      | none => (merge_lesson_items drest arest).map (fun r => item :: r)
    | _ => Except.error "AttributeError: object has no attribute get"

/-- The merge step of the reconciliation loop (lesson_plan_api.py lines
237-247): when the correction response is a dict, overwrite review_time
if the response's review_time is an int instance, then, when both the
response's and the record's new_lessons are lists, overwrite per-item
time fields in place; a non-dict entry inside the response's list raises
(propagating out of the generation). A non-dict response changes
nothing. -/
def merge_allocation (data : JObj) (allocation : JVal) : Except String JObj :=
  match allocation with
  | JVal.obj afs =>
    let d1 : JObj :=
      if (pyIntOf (dictGet afs "review_time")).isSome
      then dictSet data "review_time" (dictGet afs "review_time")
      else data
    match dictGet afs "new_lessons", dictGet d1 "new_lessons" with
    | JVal.list als, JVal.list dls =>
      (merge_lesson_items dls als).map (fun dls' => dictSet d1 "new_lessons" (JVal.list dls'))
    | _, _ => Except.ok d1
  | _ => Except.ok data

/-- Expected merge of one item, from the claim's words: the time field
is overwritten exactly when the response entry is an object with an int
time; everything else of the item is untouched. -/
def merge_one_item (item : JVal) (a : Option JVal) : JVal :=
  match a with
  | some (JVal.obj afs) =>
    match item, pyIntOf (dictGet afs "time") with
    | JVal.obj ifs, some _ => JVal.obj (dictSet ifs "time" (dictGet afs "time"))
    | _, _ => item
  | _ => item

/-- Itemwise expected merge over the whole list, from the claim's words. -/
def merge_items_spec : List JVal → List JVal → List JVal
  | [], _ => []
  | item :: drest, [] => item :: merge_items_spec drest []
  | item :: drest, a :: arest => merge_one_item item (some a) :: merge_items_spec drest arest

theorem merge_lesson_items_eq (dls als : List JVal)
    (hobjs : ∀ a ∈ als.take dls.length, ∃ fs, a = JVal.obj fs)
    (hitems : ∀ it ∈ dls, ∃ fs, it = JVal.obj fs) :
    merge_lesson_items dls als = Except.ok (merge_items_spec dls als) := by
  induction dls generalizing als with
  | nil => cases als <;> rfl
  | cons item drest ih =>
    match als with
    | [] =>
      rw [show merge_lesson_items (item :: drest) []
          = (merge_lesson_items drest []).map (fun r => item :: r) from rfl]
      rw [ih [] (by simp) (fun it hit => hitems it (List.mem_cons_of_mem _ hit))]
      rfl
    | a :: arest =>
      obtain ⟨afs, rfl⟩ := hobjs a (by
        rw [List.length_cons, List.take_succ_cons]
        exact List.mem_cons_self _ _)
      have hobjs' : ∀ x ∈ arest.take drest.length, ∃ fs, x = JVal.obj fs := by
        intro x hx
        exact hobjs x (by
          rw [List.length_cons, List.take_succ_cons]
          exact List.mem_cons_of_mem _ hx)
      have hitems' : ∀ it ∈ drest, ∃ fs, it = JVal.obj fs :=
        fun it hit => hitems it (List.mem_cons_of_mem _ hit)
      obtain ⟨ifs, rfl⟩ := hitems item (List.mem_cons_self _ _)
      cases hto : pyIntOf (dictGet afs "time") with
      | some t =>
        simp only [merge_lesson_items, merge_items_spec, merge_one_item, hto]
        rw [ih arest hobjs' hitems']
        rfl
      | none =>
        simp only [merge_lesson_items, merge_items_spec, merge_one_item, hto]
        rw [ih arest hobjs' hitems']
        rfl

/-- The conclusion of claim C8 in amended form, at one (record,
response) input: a non-dict response changes nothing; a dict response
whose new_lessons entries (up to the record's list length) are objects
merges successfully, overwriting review_time only for an int-instance
value, leaving every key other than review_time and new_lessons
untouched, and rewriting the new_lessons list itemwise per
merge_one_item (time overwritten only for an int time at that index,
item otherwise untouched). -/
def c8_conclusion (data : JObj) (allocation : JVal) : Prop :=
  ((∀ afs, allocation ≠ JVal.obj afs) → merge_allocation data allocation = Except.ok data)
  ∧ (∀ afs, allocation = JVal.obj afs →
      ∀ als dls, dictGet afs "new_lessons" = JVal.list als →
        dictGet data "new_lessons" = JVal.list dls →
        (∀ a ∈ als.take dls.length, ∃ fs, a = JVal.obj fs) →
        (∀ it ∈ dls, ∃ fs, it = JVal.obj fs) →
        ∃ result, merge_allocation data allocation = Except.ok result
          ∧ dictGet result "review_time"
              = (if (pyIntOf (dictGet afs "review_time")).isSome
                 then dictGet afs "review_time" else dictGet data "review_time")
          ∧ (∀ k, k ≠ "review_time" → k ≠ "new_lessons" → dictGet result k = dictGet data k)
          ∧ dictGet result "new_lessons" = JVal.list (merge_items_spec dls als))

/-- C8 (amended): the merge overwrites review_time only for an
int-instance response value and per-item time only for an int time at
that index, leaving all other fields (including every content) untouched
— provided every consulted response entry is an object; a non-object
entry aborts the merge with an error instead of leaving the value
untouched (see the counterexample). -/
theorem claim_C8 (data : JObj) (allocation : JVal) : c8_conclusion data allocation := by
  constructor
  · intro hne
    match allocation with
    | JVal.obj afs' => exact absurd rfl (hne afs')
    | JVal.null => rfl
    | JVal.bool b => rfl
    | JVal.int n => rfl
    | JVal.str s => rfl
    | JVal.list xs => rfl
  · rintro afs rfl als dls hal hdl hobjs hitems
    have hd1nl : dictGet (if (pyIntOf (dictGet afs "review_time")).isSome
        then dictSet data "review_time" (dictGet afs "review_time") else data) "new_lessons"
        = JVal.list dls := by
      by_cases hrev : (pyIntOf (dictGet afs "review_time")).isSome
      · rw [if_pos hrev, dictGet_dictSet_ne _ _ _ _ (by decide)]
        exact hdl
      · rw [if_neg hrev]
        exact hdl
    refine ⟨dictSet (if (pyIntOf (dictGet afs "review_time")).isSome
        then dictSet data "review_time" (dictGet afs "review_time") else data) "new_lessons"
        (JVal.list (merge_items_spec dls als)), ?_, ?_, ?_, ?_⟩
    · simp only [merge_allocation]
      rw [hal, hd1nl]
      simp only []
      rw [merge_lesson_items_eq dls als hobjs hitems]
      rfl
    · rw [dictGet_dictSet_ne _ _ _ _ (by decide)]
      by_cases hrev : (pyIntOf (dictGet afs "review_time")).isSome
      · rw [if_pos hrev, if_pos hrev, dictGet_dictSet_self]
      · rw [if_neg hrev, if_neg hrev]
    · intro k hk1 hk2
      rw [dictGet_dictSet_ne _ _ _ _ hk2]
      by_cases hrev : (pyIntOf (dictGet afs "review_time")).isSome
      · rw [if_pos hrev, dictGet_dictSet_ne _ _ _ _ hk1]
      · rw [if_neg hrev]
    · rw [dictGet_dictSet_self]

/-- C8 counterexample: a response whose new_lessons list holds a
non-object entry makes the merge raise (for the claim the malformed
value should have left the previous value untouched); the merge does not
complete at all. -/
theorem claim_C8_counterexample :
    (merge_allocation
      [("new_lessons", JVal.list [JVal.obj [("content", JVal.str "a"), ("time", JVal.int 5)]])]
      (JVal.obj [("new_lessons", JVal.list [JVal.str "x"])])).isOk = false := by
  rfl

/-- The outcome and LLM-call count of the reconciliation loop of
generate_lesson_plan_stream (lesson_plan_api.py lines 227-252). -/
structure ReconcileResult where
  outcome : Except String JObj
  llm_calls : Nat

/-- The reconciliation loop: validate; when it fails, up to 2 repair
rounds, each merging one correction response (r1 then r2) and
re-validating, stopping early on success; when both rounds leave
validation failing, raise the validation-failure message carrying the
validator's last reason. A merge exception propagates. -/
def reconcile_time_allocation (data : JObj) (hours : Int) (r1 r2 : JVal) : ReconcileResult :=
  if (validate_time_allocation data hours).1 then ⟨Except.ok data, 0⟩
  else
    match merge_allocation data r1 with
    | Except.error e => ⟨Except.error e, 1⟩
    | Except.ok d1 =>
      if (validate_time_allocation d1 hours).1 then ⟨Except.ok d1, 1⟩
      else
        match merge_allocation d1 r2 with
        | Except.error e => ⟨Except.error e, 2⟩
        | Except.ok d2 =>
          if (validate_time_allocation d2 hours).1 then ⟨Except.ok d2, 2⟩
          else ⟨Except.error ("时间分配校验失败：" ++ (validate_time_allocation d2 hours).2), 2⟩

/-- C4: the reconciliation loop makes at most 2 repair LLM calls, and
when the initial validation fails and both repair rounds (with
successfully merging responses) still leave validation failing, the
loop terminates with the failure outcome carrying the validator's last
reason, never accepting the invalid record. -/
theorem claim_C4 (data : JObj) (hours : Int) (r1 r2 : JVal) :
    (reconcile_time_allocation data hours r1 r2).llm_calls ≤ 2
    ∧ ((validate_time_allocation data hours).1 = false →
       ∀ d1, merge_allocation data r1 = Except.ok d1 →
       (validate_time_allocation d1 hours).1 = false →
       ∀ d2, merge_allocation d1 r2 = Except.ok d2 →
       (validate_time_allocation d2 hours).1 = false →
       reconcile_time_allocation data hours r1 r2
         = ⟨Except.error ("时间分配校验失败：" ++ (validate_time_allocation d2 hours).2), 2⟩) := by
  constructor
  · rw [reconcile_time_allocation]
    by_cases h0 : (validate_time_allocation data hours).1
    · rw [if_pos h0]
      exact Nat.le_of_sub_eq_zero rfl
    · rw [if_neg h0]
      cases hm : merge_allocation data r1 with
      | error e =>
        simp only []
        exact Nat.le_of_sub_eq_zero rfl
      | ok d1 =>
        simp only []
        by_cases h1 : (validate_time_allocation d1 hours).1
        · rw [if_pos h1]
          exact Nat.le_of_sub_eq_zero rfl
        · rw [if_neg h1]
          cases hm2 : merge_allocation d1 r2 with
          | error e =>
            simp only []
            exact Nat.le_of_sub_eq_zero rfl
          | ok d2 =>
            simp only []
            by_cases h2 : (validate_time_allocation d2 hours).1
            · rw [if_pos h2]
            · rw [if_neg h2]
  · intro h0 d1 hm1 h1 d2 hm2 h2
    rw [reconcile_time_allocation, if_neg (by rw [h0]; exact Bool.false_ne_true), hm1]
    simp only []
    rw [if_neg (by rw [h1]; exact Bool.false_ne_true), hm2]
    simp only []
    rw [if_neg (by rw [h2]; exact Bool.false_ne_true)]

/-! ## Job state machine failure transition (copyright_service.py) -/

/-- The CopyrightJob fields touched by update_job_state. -/
structure CopyrightJob where
  status : String
  stage : String
  message : String
  progress : Int
  error : Option String
  output_zip_path : Option String
deriving DecidableEq

/-- update_job_state from copyright_service.py: each keyword that is not
None overwrites the matching job field; None leaves the field as it is. -/
def update_job_state (job : CopyrightJob) (status stage message : Option String)
    (progress : Option Int) (error output_zip_path : Option String) : CopyrightJob :=
  { status := status.getD job.status
    stage := stage.getD job.stage
    message := message.getD job.message
    progress := progress.getD job.progress
    error := match error with
      | some e => some e
      | none => job.error
    output_zip_path := match output_zip_path with
      | some p => some p
      | none => job.output_zip_path }

/-- The update applied by the exception handler of
run_copyright_generation (copyright_service.py lines 865-873): status
failed, stage error, the failure message, the error text, and progress
0. -/
def fail_job_update (job : CopyrightJob) (error_message : String) : CopyrightJob :=
  update_job_state job (some "failed") (some "error")
    (some ("生成失败：" ++ error_message)) (some 0) (some error_message) none

/-- C3 counterexample: a run failing while its job reports progress 50
does not keep progress 50 — the failure transition resets it. -/
theorem claim_C3_counterexample :
    (fail_job_update
      { status := "running", stage := "generating", message := "m", progress := 50,
        error := none, output_zip_path := none } "boom").progress ≠ 50 := by
  decide

/-- C3 (amended): on every exception path the failure transition sets
status failed, stage error, records the error text, and resets progress
to 0 (instead of leaving it at the last reported value). -/
theorem claim_C3 (job : CopyrightJob) (error_message : String) :
    (fail_job_update job error_message).status = "failed"
    ∧ (fail_job_update job error_message).stage = "error"
    ∧ (fail_job_update job error_message).progress = 0
    ∧ (fail_job_update job error_message).error = some error_message :=
  ⟨rfl, rfl, rfl, rfl⟩

/-! ## LLM client adapter retry logic (copyright_service.py, run_prompt) -/

/-- The attributes of a raised Python exception that run_prompt and
is_rate_limit_error inspect: whether it is an openai.RateLimitError
instance, its status_code attribute, its response.status_code, str(exc),
repr(exc), the optional body text, and whether it is a JSONDecodeError. -/
structure PyError where
  isRateLimitInstance : Bool
  statusCode : Option Int
  respStatusCode : Option Int
  strText : String
  reprText : String
  bodyText : Option String
  isJSONDecodeError : Bool

/-- Substring search over character lists. -/
def charsContainsSub (needle : List Char) : List Char → Bool
  | [] => needle.isEmpty
  | h :: t => List.isPrefixOf needle (h :: t) || charsContainsSub needle t

/-- Python `needle in hay` for strings. -/
def strContainsSub (hay needle : String) : Bool :=
  charsContainsSub needle.data hay.data

/-- _collect_error_text: join str(exc), repr(exc) and the body text,
skipping empty parts, and strip the result. -/
def collect_error_text (e : PyError) : String :=
  let parts := [e.strText, e.reprText] ++ (match e.bodyText with
    | some b => [b]
    | none => [])
  pyStrip (String.intercalate " " (parts.filter (fun p => p != "")))

/-- is_rate_limit_error from copyright_service.py: an explicit
RateLimitError instance, a 429 status code (direct or on the response),
or rate-limit vocabulary in the lowercased collected error text. -/
def is_rate_limit_error (e : PyError) : Bool :=
  e.isRateLimitInstance
  || e.statusCode == some 429
  || e.respStatusCode == some 429
  || (let m := (collect_error_text e).toLower
      strContainsSub m "rate limit" || strContainsSub m "too many requests"
        || strContainsSub m "429")

/-- One round of the chat-completion call as run_prompt observes it:
either a completed response with its list of choice contents, or a
raised exception. -/
inductive CallResult where
  | success (choices : List (Option String))
  | raise (e : PyError)

/-- What a run of run_prompt did: the returned text or raised message,
the number of attempts made, and the number of backoff sleeps. -/
structure RunPromptTrace where
  result : Except String String
  attempts : Nat
  sleeps : Nat

/-- The rate-limit failure message of run_prompt. -/
def rate_limit_message : String :=
  "已触发接口限流（Rate Limit）。请稍后再试或更换接口提供商。建议避免同时发起多个生成任务。"

/-- The invalid-response failure message of run_prompt. -/
def invalid_response_message : String :=
  "AI 服务响应异常（返回空内容或非 JSON）。请检查 Base URL、模型名与网络连通性，并确认服务支持 OpenAI 兼容接口。"

/-- The attempt loop of run_prompt (copyright_service.py lines 223-265):
a response with no choices returns the empty string; a response returns
the stripped first-choice content (None treated as empty); a raised
error classified as rate limiting aborts immediately with the rate-limit
message; other errors sleep and retry while attempts remain, and after
the last attempt raise the invalid-response message for JSON decode
failures (or text containing "Expecting value") and the generic call
failure carrying the error text otherwise. attemptsLeft counts the
remaining loop iterations, starting at 3. -/
def run_prompt_loop (calls : Nat → CallResult) :
    Nat → Nat → Nat → RunPromptTrace
  | 0, attempt, sleeps => ⟨Except.error ("AI 调用失败：None"), attempt, sleeps⟩
  | n + 1, attempt, sleeps =>
    match calls attempt with
    | CallResult.success choices =>
      match choices with
      | [] => ⟨Except.ok "", attempt + 1, sleeps⟩
      | c :: _ => ⟨Except.ok (pyStrip (c.getD "")), attempt + 1, sleeps⟩
    | CallResult.raise e =>
      if is_rate_limit_error e then ⟨Except.error rate_limit_message, attempt + 1, sleeps⟩
      else if 0 < n then run_prompt_loop calls n (attempt + 1) (sleeps + 1)
      else if e.isJSONDecodeError || strContainsSub e.strText "Expecting value"
      then ⟨Except.error invalid_response_message, attempt + 1, sleeps⟩
      else ⟨Except.error ("AI 调用失败：" ++ e.strText), attempt + 1, sleeps⟩

/-- run_prompt: up to 3 attempts, starting with attempt 0 and no sleeps. -/
def run_prompt (calls : Nat → CallResult) : RunPromptTrace :=
  run_prompt_loop calls 3 0 0

/-- The conclusion of claim C5 for a call oracle whose first attempt
raises e: a rate-limit-classified error means exactly one attempt, no
backoff sleep, and the distinct rate-limit message; three non-rate-limit
failures mean three attempts, two sleeps, and the invalid-response or
generic failure message of the last error. -/
def c5_conclusion (calls : Nat → CallResult) (e : PyError) : Prop :=
  (is_rate_limit_error e = true →
    run_prompt calls = ⟨Except.error rate_limit_message, 1, 0⟩)
  ∧ (∀ e1 e2, calls 1 = CallResult.raise e1 → calls 2 = CallResult.raise e2 →
      is_rate_limit_error e = false → is_rate_limit_error e1 = false →
      is_rate_limit_error e2 = false →
      run_prompt calls
        = ⟨Except.error
            (if e2.isJSONDecodeError || strContainsSub e2.strText "Expecting value"
             then invalid_response_message
             else "AI 调用失败：" ++ e2.strText), 3, 2⟩)

/-- C5: a first-attempt error classified as rate limiting makes
run_prompt stop after exactly 1 attempt with no backoff sleep and raise
the distinct rate-limit message; non-rate-limit failures are retried up
to the 3-attempt budget (with backoff sleeps), ending in the
invalid-response or generic failure message. -/
theorem claim_C5 (calls : Nat → CallResult) (e : PyError)
    (h0 : calls 0 = CallResult.raise e) : c5_conclusion calls e := by
  constructor
  · intro hrl
    rw [run_prompt, run_prompt_loop, h0]
    simp only []
    rw [if_pos hrl]
  · intro e1 e2 h1 h2 hrl0 hrl1 hrl2
    rw [run_prompt, run_prompt_loop, h0]
    simp only []
    rw [if_neg (by rw [hrl0]; exact Bool.false_ne_true), if_pos (by omega : 0 < 2)]
    rw [run_prompt_loop, h1]
    simp only []
    rw [if_neg (by rw [hrl1]; exact Bool.false_ne_true), if_pos (by omega : 0 < 1)]
    rw [run_prompt_loop, h2]
    simp only []
    rw [if_neg (by rw [hrl2]; exact Bool.false_ne_true), if_neg (by omega : ¬ (0 < 0))]
    by_cases hj : (e2.isJSONDecodeError || strContainsSub e2.strText "Expecting value") = true
    · rw [if_pos hj, if_pos hj]
    · rw [if_neg hj, if_neg hj]

/-- A concrete rate-limit error: an openai.RateLimitError instance. -/
def c5_rl_error : PyError :=
  { isRateLimitInstance := true, statusCode := some 429, respStatusCode := none,
    strText := "Rate limit reached", reprText := "RateLimitError()", bodyText := none,
    isJSONDecodeError := false }

/-- A call oracle that always raises the rate-limit error. -/
def c5_rl_calls : Nat → CallResult := fun _ => CallResult.raise c5_rl_error

/-- C5 witness: with an always-rate-limited oracle the hypothesis holds
and the conclusion follows; evaluating, run_prompt makes exactly one
attempt and raises the rate-limit message. -/
theorem claim_C5_witness :
    c5_rl_calls 0 = CallResult.raise c5_rl_error
    ∧ c5_conclusion c5_rl_calls c5_rl_error :=
  ⟨rfl, claim_C5 c5_rl_calls c5_rl_error rfl⟩

/-! ## Workspace-contained file writing (copyright_service.py, safe_write_files) -/

/-- Python lstrip("/"): drop every leading slash. -/
def pyLstripSlash (s : String) : String :=
  String.mk (s.data.dropWhile (fun c => c = '/'))

/-- Split a character list on slashes, keeping empty segments (the
behaviour of str.split("/")). -/
def splitSlashChars : List Char → List Char → List (List Char)
  | [], acc => [acc.reverse]
  | c :: rest, acc =>
    if c = '/' then acc.reverse :: splitSlashChars rest []
    else splitSlashChars rest (c :: acc)

/-- pathlib PurePosixPath parts of a relative path string: the segments
between slashes, with empty segments and single dots removed. -/
def path_parts (s : String) : List String :=
  ((splitSlashChars s.data []).map String.mk).filter (fun p => p != "" && p != ".")

/-- Whether a POSIX path string is absolute. -/
def path_is_absolute (s : String) : Bool :=
  s.data.head? == some '/'

/-- What safe_write_files does with one map entry: the path is stripped
of whitespace and of leading slashes, then skipped when the resulting
path is absolute (impossible after the lstrip) or has a ".." segment;
otherwise the file root/<path> is written with the stripped content plus
a trailing newline. The result is the written (path parts, content). -/
def safe_write_entry (root : List String) (raw content : String) :
    Option (List String × String) :=
  let rel := pyLstripSlash (pyStrip raw)
  if path_is_absolute rel ∨ ".." ∈ path_parts rel then none
  else some (root ++ path_parts rel, pyStrip content ++ "\n")

/-- safe_write_files from copyright_service.py: the files actually
written for a map of path/content entries, in order. -/
def safe_write_files (root : List String) (file_map : List (String × String)) :
    List (List String × String) :=
  file_map.filterMap (fun e => safe_write_entry root e.1 e.2)

example : safe_write_files ["ws"] [("../../etc/passwd", "x")] = [] := by decide

example :
    safe_write_files ["ws"] [("a/b.txt", "hi"), ("../../etc/passwd", "x")]
      = [(["ws", "a", "b.txt"], "hi\n")] := by decide

/-- C6 counterexample: an absolute path is not skipped — its leading
slashes are stripped and a file is written for that entry (under the
root), while the claim says no file is written for absolute entries. -/
theorem claim_C6_counterexample :
    safe_write_files ["workspace"] [("/etc/passwd", "x")]
      = [(["workspace", "etc", "passwd"], "x\n")] := by
  decide

/-- C6 (amended): an entry whose path holds a ".." segment is silently
skipped (nothing written, no raise); "../../etc/passwd" in particular
writes nothing; and every file that is written lies under the given root
(its path is the root followed by segments none of which is "..", "."
or empty). Absolute paths, however, are not skipped: their leading
slashes are stripped and they are written reinterpreted under the root
(see the counterexample). -/
theorem claim_C6 (root : List String) (file_map : List (String × String)) :
    (∀ raw content, ".." ∈ path_parts (pyLstripSlash (pyStrip raw)) →
      safe_write_entry root raw content = none)
    ∧ safe_write_entry root "../../etc/passwd" "x" = none
    ∧ (∀ p ∈ safe_write_files root file_map,
        ∃ parts, p.1 = root ++ parts ∧ ".." ∉ parts ∧ "." ∉ parts ∧ "" ∉ parts) := by
  refine ⟨?_, ?_, ?_⟩
  · intro raw content hdd
    rw [safe_write_entry]
    rw [if_pos (Or.inr hdd)]
  · rw [safe_write_entry]
    rw [if_pos (Or.inr (by decide :
      ".." ∈ path_parts (pyLstripSlash (pyStrip "../../etc/passwd"))))]
  · intro p hp
    rw [safe_write_files, List.mem_filterMap] at hp
    obtain ⟨e, _, he⟩ := hp
    rw [safe_write_entry] at he
    by_cases hskip : path_is_absolute (pyLstripSlash (pyStrip e.1)) = true
        ∨ ".." ∈ path_parts (pyLstripSlash (pyStrip e.1))
    · rw [if_pos hskip] at he
      exact Option.noConfusion he
    · rw [if_neg hskip] at he
      refine ⟨path_parts (pyLstripSlash (pyStrip e.1)), ?_, ?_, ?_, ?_⟩
      · rw [← Option.some.inj he]
      · intro hin
        exact hskip (Or.inr hin)
      · intro hin
        rw [path_parts, List.mem_filter] at hin
        have := hin.2
        simp at this
      · intro hin
        rw [path_parts, List.mem_filter] at hin
        have := hin.2
        simp at this

/-! ## Multi-file block parser (copyright_service.py, parse_file_blocks) -/

/-- The characters str.splitlines splits on. -/
def isPyLineBreak (c : Char) : Bool :=
  c = '\n' || c = '\r' || c = '\x0b' || c = '\x0c' || c = '\x1c' || c = '\x1d'
    || c = '\x1e' || c = '\x85' || c = '\u2028' || c = '\u2029'

/-- Python str.splitlines over characters: acc is the current line
reversed; a line break flushes it; "\r\n" counts as a single break; a
trailing partial line is kept, a trailing break adds no empty line. -/
def pySplitlinesChars : List Char → List Char → List (List Char)
  | [], acc => if acc.isEmpty then [] else [acc.reverse]
  | '\r' :: '\n' :: rest2, acc => acc.reverse :: pySplitlinesChars rest2 []
  | '\r' :: rest, acc => acc.reverse :: pySplitlinesChars rest []
  | c :: rest, acc =>
    if isPyLineBreak c then acc.reverse :: pySplitlinesChars rest []
    else pySplitlinesChars rest (c :: acc)

/-- Python str.splitlines. -/
def pySplitlines (s : String) : List String :=
  (pySplitlinesChars s.data []).map String.mk

/-- Horizontal whitespace skipped by the marker regex between tokens. -/
def dropSpaces (l : List Char) : List Char :=
  l.dropWhile (fun c => c = ' ' || c = '\t')

/-- The tail of the marker regex after the FILE or 文件 label: optional
whitespace, an ASCII or full-width colon, then the path group, which
must be non-empty; the path is the stripped remainder (an all-whitespace
remainder strips to the empty falsy path, as the regex group would). -/
def marker_after_label (rest : List Char) : Option String :=
  match dropSpaces rest with
  | c :: rest2 =>
    if c = ':' ∨ c = '：' then
      if rest2.isEmpty then none else some (pyStrip (String.mk rest2))
    else none
  | [] => none

/-- The marker regex of parse_file_blocks applied to a (stripped) line:
three hashes, optional whitespace, a case-insensitive FILE or a 文件
label, optional whitespace, a colon, and the non-empty path. -/
def match_file_marker (line : String) : Option String :=
  match line.data with
  | '#' :: '#' :: '#' :: rest =>
    match dropSpaces rest with
    | a :: b :: c :: d :: rest2 =>
      if (a = 'F' ∨ a = 'f') ∧ (b = 'I' ∨ b = 'i') ∧ (c = 'L' ∨ c = 'l')
          ∧ (d = 'E' ∨ d = 'e')
      then marker_after_label rest2
      else if a = '文' ∧ b = '件' then marker_after_label (c :: d :: rest2)
      else none
    | a :: b :: rest2 =>
      if a = '文' ∧ b = '件' then marker_after_label rest2 else none
    | _ => none
  | _ => none

example : match_file_marker "### FILE: src/app.py" = some "src/app.py" := by decide
example : match_file_marker "###file:x.txt" = some "x.txt" := by decide
example : match_file_marker "### 文件：index.html" = some "index.html" := by decide
example : match_file_marker "## FILE: x" = none := by decide
example : match_file_marker "### FILE:" = none := by decide

/-- Python dict assignment for the files mapping of parse_file_blocks:
overwrite an existing key in place, append a new key. -/
def upsert (files : List (String × String)) (k v : String) : List (String × String) :=
  match files with
  | [] => [(k, v)]
  | (k', v') :: rest => if k' = k then (k', v) :: rest else (k', v') :: upsert rest k v

/-- Python str.strip("\n"): remove leading and trailing newline
characters. -/
def strip_newlines (s : String) : String :=
  String.mk ((s.data.dropWhile (fun c => c = '\n')).reverse.dropWhile
    (fun c => c = '\n')).reverse

/-- The line loop of parse_file_blocks: a marker line flushes the
current section (stored only under a truthy path) and opens a new one;
any other line joins the current buffer; at the end the open section is
flushed. The buffer is kept in reverse order. -/
def parse_lines :
    List String → Option String → List String → List (String × String) →
      List (String × String)
  | [], cur, buf, files =>
    (match cur with
     | some p =>
       if p ≠ "" then upsert files p (strip_newlines (String.intercalate "\n" buf.reverse))
       else files
     | none => files)
  | line :: rest, cur, buf, files =>
    match match_file_marker (pyStrip line) with
    | some newPath =>
      parse_lines rest (some newPath) []
        (match cur with
         | some p =>
           if p ≠ "" then upsert files p (strip_newlines (String.intercalate "\n" buf.reverse))
           else files
         | none => files)
    | none => parse_lines rest cur (line :: buf) files

/-- parse_file_blocks from copyright_service.py. -/
def parse_file_blocks (content : String) : List (String × String) :=
  parse_lines (pySplitlines content) none [] []

/-- Serialization with the "### FILE:" convention named by the claim:
each entry contributes its marker line and its content, terminated by a
newline so the next marker starts a fresh line. -/
def serialize_file_blocks : List (String × String) → String
  | [] => ""
  | e :: rest => "### FILE: " ++ e.1 ++ "\n" ++ e.2 ++ "\n" ++ serialize_file_blocks rest

example :
    parse_file_blocks "### FILE: a.txt\nhello\nworld\n### FILE: b.txt\n\nhi\n"
      = [("a.txt", "hello\nworld"), ("b.txt", "hi")] := by decide

/-- C7 counterexample: a content value containing a line that matches
the marker convention breaks the round trip — re-parsing splits it into
two sections instead of returning the original mapping. -/
theorem claim_C7_counterexample :
    parse_file_blocks (serialize_file_blocks [("a.txt", "### FILE: b.txt")])
      ≠ [("a.txt", strip_newlines "### FILE: b.txt")] := by
  decide

/-! ### Round-trip lemmas for the file-block parser -/

set_option maxHeartbeats 2000000 in
theorem splitlines_cons_nl (rest : List Char) (acc : List Char) :
    pySplitlinesChars ('\n' :: rest) acc = acc.reverse :: pySplitlinesChars rest [] := by
  rw [pySplitlinesChars.eq_def]
  split
  · rename_i heq
    exact absurd heq (by simp)
  · rename_i heq
    rw [List.cons.injEq] at heq
    exact absurd heq.1 (by decide)
  · rename_i heq
    rw [List.cons.injEq] at heq
    exact absurd heq.1 (by decide)
  · rename_i c rest2 hno1 hno2 heq
    rw [List.cons.injEq] at heq
    obtain ⟨h1, h2⟩ := heq
    subst h2
    rw [← h1]
    rw [if_pos (by decide)]

theorem splitlines_cons_other (c : Char) (rest : List Char) (acc : List Char)
    (hc : isPyLineBreak c = false) :
    pySplitlinesChars (c :: rest) acc = pySplitlinesChars rest (c :: acc) := by
  have hcr : c ≠ '\r' := by
    intro h
    rw [h] at hc
    exact absurd hc (by decide)
  rw [pySplitlinesChars.eq_def]
  split
  · rename_i heq
    exact absurd heq (by simp)
  · rename_i heq
    rw [List.cons.injEq] at heq
    exact absurd heq.1 hcr
  · rename_i heq
    rw [List.cons.injEq] at heq
    exact absurd heq.1 hcr
  · rename_i c2 rest2 hno1 hno2 heq
    rw [List.cons.injEq] at heq
    obtain ⟨h1, h2⟩ := heq
    subst h2
    rw [← h1]
    rw [if_neg (by rw [hc]; exact Bool.false_ne_true)]

theorem splitlines_append (a b : List Char) (acc : List Char)
    (honly : ∀ ch ∈ a, ch = '\n' ∨ isPyLineBreak ch = false)
    (ha : a.getLast? = some '\n') :
    pySplitlinesChars (a ++ b) acc = pySplitlinesChars a acc ++ pySplitlinesChars b [] := by
  induction a generalizing acc with
  | nil => exact absurd ha (by simp)
  | cons c rest ih =>
    have honly' : ∀ ch ∈ rest, ch = '\n' ∨ isPyLineBreak ch = false :=
      fun ch hch => honly ch (List.mem_cons_of_mem _ hch)
    rcases honly c (List.mem_cons_self _ _) with hc | hc
    · subst hc
      rw [List.cons_append, splitlines_cons_nl, splitlines_cons_nl]
      cases rest with
      | nil =>
        rw [List.nil_append]
        rfl
      | cons r rs =>
        rw [ih [] honly' (by rw [List.getLast?_cons_cons] at ha; exact ha)]
        rfl
    · have hcnl : c ≠ '\n' := by
        intro h
        rw [h] at hc
        exact absurd hc (by decide)
      cases rest with
      | nil =>
        rw [List.getLast?_singleton] at ha
        exact absurd (Option.some.inj ha) hcnl
      | cons r rs =>
        rw [List.cons_append, splitlines_cons_other c _ _ hc, splitlines_cons_other c _ _ hc]
        rw [List.getLast?_cons_cons] at ha
        exact ih (c :: acc) honly' ha

theorem splitlines_single_line (l : List Char) (acc : List Char)
    (hno : ∀ ch ∈ l, isPyLineBreak ch = false) :
    pySplitlinesChars (l ++ ['\n']) acc = [acc.reverse ++ l] := by
  induction l generalizing acc with
  | nil =>
    rw [List.nil_append, splitlines_cons_nl]
    rw [show pySplitlinesChars [] [] = [] from rfl]
    rw [List.append_nil]
  | cons c rest ih =>
    rw [List.cons_append, splitlines_cons_other c _ _ (hno c (List.mem_cons_self _ _))]
    rw [ih (c :: acc) (fun ch hch => hno ch (List.mem_cons_of_mem _ hch))]
    simp

/-- Join lines with newline separators (the character-level counterpart
of "\n".join). -/
def interNl : List (List Char) → List Char
  | [] => []
  | l :: rest => l ++ rest.flatMap (fun x => '\n' :: x)

theorem interNl_cons_of_ne_nil (x : List Char) (L : List (List Char)) (hL : L ≠ []) :
    interNl (x :: L) = x ++ '\n' :: interNl L := by
  cases L with
  | nil => exact absurd rfl hL
  | cons y ys =>
    rw [interNl, interNl, List.flatMap_cons]
    simp

theorem splitlines_trailing_ne_nil (l : List Char) (acc : List Char)
    (honly : ∀ ch ∈ l, ch = '\n' ∨ isPyLineBreak ch = false) :
    pySplitlinesChars (l ++ ['\n']) acc ≠ [] := by
  induction l generalizing acc with
  | nil =>
    rw [List.nil_append, splitlines_cons_nl]
    exact List.cons_ne_nil _ _
  | cons c rest ih =>
    rcases honly c (List.mem_cons_self _ _) with hc | hc
    · subst hc
      rw [List.cons_append, splitlines_cons_nl]
      exact List.cons_ne_nil _ _
    · rw [List.cons_append, splitlines_cons_other c _ _ hc]
      exact ih (c :: acc) (fun ch hch => honly ch (List.mem_cons_of_mem _ hch))

theorem interNl_splitlines (c : List Char) (acc : List Char)
    (honly : ∀ ch ∈ c, ch = '\n' ∨ isPyLineBreak ch = false) :
    interNl (pySplitlinesChars (c ++ ['\n']) acc) = acc.reverse ++ c := by
  induction c generalizing acc with
  | nil =>
    rw [List.nil_append, splitlines_cons_nl]
    rw [show pySplitlinesChars [] [] = [] from rfl]
    rw [interNl, List.flatMap_nil, List.append_nil]
  | cons ch rest ih =>
    have honly' : ∀ x ∈ rest, x = '\n' ∨ isPyLineBreak x = false :=
      fun x hx => honly x (List.mem_cons_of_mem _ hx)
    rcases honly ch (List.mem_cons_self _ _) with hc | hc
    · subst hc
      rw [List.cons_append, splitlines_cons_nl]
      rw [interNl_cons_of_ne_nil _ _ (splitlines_trailing_ne_nil rest [] honly')]
      rw [ih [] honly']
      rw [List.reverse_nil, List.nil_append]
    · rw [List.cons_append, splitlines_cons_other ch _ _ hc]
      rw [ih (ch :: acc) honly']
      simp

theorem intercalate_go_mk (acc : List Char) (rest : List (List Char)) :
    String.intercalate.go (String.mk acc) "\n" (rest.map String.mk)
      = String.mk (acc ++ rest.flatMap (fun x => '\n' :: x)) := by
  induction rest generalizing acc with
  | nil =>
    rw [List.map_nil, String.intercalate.go, List.flatMap_nil, List.append_nil]
  | cons l ls ih =>
    rw [List.map_cons, String.intercalate.go]
    have hstr : String.mk acc ++ "\n" ++ String.mk l = String.mk (acc ++ '\n' :: l) := by
      have h1 : String.mk acc ++ "\n" ++ String.mk l = String.mk ((acc ++ ['\n']) ++ l) := rfl
      rw [h1, List.append_assoc]
      rfl
    rw [hstr, ih (acc ++ '\n' :: l)]
    rw [List.flatMap_cons]
    congr 1
    simp

theorem intercalate_mk (ls : List (List Char)) :
    String.intercalate "\n" (ls.map String.mk) = String.mk (interNl ls) := by
  cases ls with
  | nil => rfl
  | cons l rest =>
    rw [List.map_cons, String.intercalate, intercalate_go_mk, interNl]

theorem upsert_fresh (files : List (String × String)) (k v : String)
    (h : k ∉ files.map Prod.fst) :
    upsert files k v = files ++ [(k, v)] := by
  induction files with
  | nil => rfl
  | cons e rest ih =>
    obtain ⟨k', v'⟩ := e
    rw [List.map_cons, List.mem_cons, not_or] at h
    obtain ⟨h1, h2⟩ := h
    rw [upsert, if_neg (fun he => h1 (Eq.symm he)), ih h2]
    rfl

theorem parse_lines_content (ls : List String)
    (hnm : ∀ l ∈ ls, match_file_marker (pyStrip l) = none)
    (rest : List String) (cur : Option String) (buf : List String)
    (files : List (String × String)) :
    parse_lines (ls ++ rest) cur buf files = parse_lines rest cur (ls.reverse ++ buf) files := by
  induction ls generalizing buf with
  | nil => rw [List.nil_append, List.reverse_nil, List.nil_append]
  | cons l ls' ih =>
    rw [List.cons_append]
    rw [parse_lines.eq_def]
    simp only []
    rw [hnm l (List.mem_cons_self _ _)]
    simp only []
    rw [ih (fun x hx => hnm x (List.mem_cons_of_mem _ hx)) (l :: buf)]
    rw [List.reverse_cons, List.append_assoc]
    rfl

theorem dropWhile_eq_self_of_head (f : Char → Bool) (l : List Char)
    (h : ∀ ch, l.head? = some ch → f ch = false) : l.dropWhile f = l := by
  cases l with
  | nil => rfl
  | cons c rest =>
    rw [List.dropWhile_cons,
      if_neg (by rw [h c (by rw [List.head?_cons])]; exact Bool.false_ne_true)]

theorem pyStrip_mk_of (l : List Char)
    (hh : ∀ ch, l.head? = some ch → pyIsSpaceChar ch = false)
    (hl : ∀ ch, l.getLast? = some ch → pyIsSpaceChar ch = false) :
    pyStrip (String.mk l) = String.mk l := by
  rw [pyStrip]
  rw [show (String.mk l).data = l from rfl]
  rw [dropWhile_eq_self_of_head _ _ hh]
  rw [dropWhile_eq_self_of_head _ _
    (fun ch hch => hl ch (by rw [← List.head?_reverse]; exact hch))]
  rw [List.reverse_reverse]

theorem data_ne_nil_of_ne_empty (p : String) (hp : p ≠ "") : p.data ≠ [] := by
  intro hd
  exact hp (congrArg String.mk hd)

theorem marker_line_eq_mk (p : String) :
    "### FILE: " ++ p
      = String.mk ('#' :: '#' :: '#' :: ' ' :: 'F' :: 'I' :: 'L' :: 'E' :: ':' :: ' '
          :: p.data) := rfl

theorem getLast?_marker_line (p : String) (hp : p ≠ "") (ch : Char)
    (hch : ('#' :: '#' :: '#' :: ' ' :: 'F' :: 'I' :: 'L' :: 'E' :: ':' :: ' '
        :: p.data).getLast? = some ch) :
    p.data.getLast? = some ch := by
  have hsplit : ('#' :: '#' :: '#' :: ' ' :: 'F' :: 'I' :: 'L' :: 'E' :: ':' :: ' '
      :: p.data)
      = ['#', '#', '#', ' ', 'F', 'I', 'L', 'E', ':', ' '] ++ p.data := rfl
  rw [hsplit, List.getLast?_append] at hch
  cases hpd : p.data.getLast? with
  | none =>
    rw [List.getLast?_eq_none_iff] at hpd
    exact absurd hpd (data_ne_nil_of_ne_empty p hp)
  | some y =>
    rw [hpd] at hch
    rw [show (some y).or (['#', '#', '#', ' ', 'F', 'I', 'L', 'E', ':', ' '] :
        List Char).getLast? = some y from rfl] at hch
    rw [← hch]

theorem marker_line_strip (p : String) (hp1 : p ≠ "")
    (hh : ∀ ch, p.data.head? = some ch → pyIsSpaceChar ch = false)
    (hl : ∀ ch, p.data.getLast? = some ch → pyIsSpaceChar ch = false) :
    pyStrip ("### FILE: " ++ p) = "### FILE: " ++ p := by
  rw [marker_line_eq_mk]
  apply pyStrip_mk_of
  · intro ch hch
    rw [List.head?_cons, Option.some.injEq] at hch
    subst hch
    decide
  · intro ch hch
    exact hl ch (getLast?_marker_line p hp1 ch hch)

theorem pyStrip_space_cons (p : String) (hp1 : p ≠ "")
    (hh : ∀ ch, p.data.head? = some ch → pyIsSpaceChar ch = false)
    (hl : ∀ ch, p.data.getLast? = some ch → pyIsSpaceChar ch = false) :
    pyStrip (String.mk (' ' :: p.data)) = p := by
  rw [pyStrip]
  rw [show (String.mk (' ' :: p.data)).data = ' ' :: p.data from rfl]
  rw [List.dropWhile_cons, if_pos (by decide)]
  rw [dropWhile_eq_self_of_head _ _ hh]
  rw [dropWhile_eq_self_of_head _ _
    (fun ch hch => hl ch (by rw [← List.head?_reverse]; exact hch))]
  rw [List.reverse_reverse]

theorem marker_line_match (p : String) (hp1 : p ≠ "")
    (hh : ∀ ch, p.data.head? = some ch → pyIsSpaceChar ch = false)
    (hl : ∀ ch, p.data.getLast? = some ch → pyIsSpaceChar ch = false) :
    match_file_marker ("### FILE: " ++ p) = some p := by
  have key : match_file_marker ("### FILE: " ++ p)
      = some (pyStrip (String.mk (' ' :: p.data))) := rfl
  rw [key, pyStrip_space_cons p hp1 hh hl]

/-- The lines of the serialization, block by block: each entry
contributes its marker line followed by its content lines. -/
def serialized_lines (entries : List (String × String)) : List String :=
  entries.flatMap (fun e => ("### FILE: " ++ e.1) :: pySplitlines (e.2 ++ "\n"))

/-- Well-formedness of one entry for the amended round-trip claim: a
non-empty path without surrounding whitespace or line-break characters,
content whose only line-break character is the newline, and no content
line that itself matches the file-marker convention. -/
abbrev c7_wf_entry (e : String × String) : Prop :=
  e.1 ≠ ""
  ∧ e.1.data.head?.all (fun ch => !(pyIsSpaceChar ch)) = true
  ∧ e.1.data.getLast?.all (fun ch => !(pyIsSpaceChar ch)) = true
  ∧ (∀ ch ∈ e.1.data, isPyLineBreak ch = false)
  ∧ (∀ ch ∈ e.2.data, ch = '\n' ∨ isPyLineBreak ch = false)
  ∧ (∀ line ∈ pySplitlines (e.2 ++ "\n"), match_file_marker (pyStrip line) = none)

theorem head_space_of_wf {l : List Char}
    (h : l.head?.all (fun ch => !(pyIsSpaceChar ch)) = true) :
    ∀ ch, l.head? = some ch → pyIsSpaceChar ch = false := by
  intro ch hch
  rw [hch] at h
  simpa using h

theorem marker_prefix_no_break :
    ∀ ch ∈ (['#', '#', '#', ' ', 'F', 'I', 'L', 'E', ':', ' '] : List Char),
      isPyLineBreak ch = false := by decide

theorem content_value (c : String)
    (hcb : ∀ ch ∈ c.data, ch = '\n' ∨ isPyLineBreak ch = false) :
    String.intercalate "\n" (pySplitlines (c ++ "\n")) = c := by
  rw [pySplitlines]
  rw [show (c ++ "\n").data = c.data ++ ['\n'] from rfl]
  rw [intercalate_mk]
  rw [interNl_splitlines c.data [] hcb]
  rw [List.reverse_nil, List.nil_append]

theorem serialize_lines (entries : List (String × String))
    (hwf : ∀ e ∈ entries, c7_wf_entry e) :
    pySplitlines (serialize_file_blocks entries) = serialized_lines entries := by
  induction entries with
  | nil => rfl
  | cons e rest ih =>
    obtain ⟨p, c⟩ := e
    obtain ⟨hp1, hph, hpl, hpb, hcb, hcm⟩ := hwf (p, c) (List.mem_cons_self _ _)
    have hwf' : ∀ x ∈ rest, c7_wf_entry x := fun x hx => hwf x (List.mem_cons_of_mem _ hx)
    have hmarker_nb : ∀ ch ∈ ("### FILE: " ++ p).data ++ ['\n'],
        ch = '\n' ∨ isPyLineBreak ch = false := by
      intro ch hch
      rcases List.mem_append.1 hch with hch | hch
      · rw [show ("### FILE: " ++ p).data
            = (['#', '#', '#', ' ', 'F', 'I', 'L', 'E', ':', ' '] : List Char)
              ++ p.data from rfl] at hch
        rcases List.mem_append.1 hch with hch | hch
        · exact Or.inr (marker_prefix_no_break ch hch)
        · exact Or.inr (hpb ch hch)
      · rw [List.mem_singleton] at hch
        exact Or.inl hch
    have hcontent_nb : ∀ ch ∈ c.data ++ ['\n'], ch = '\n' ∨ isPyLineBreak ch = false := by
      intro ch hch
      rcases List.mem_append.1 hch with hch | hch
      · exact hcb ch hch
      · rw [List.mem_singleton] at hch
        exact Or.inl hch
    have hA_nb : ∀ ch ∈ (("### FILE: " ++ p).data ++ ['\n']) ++ (c.data ++ ['\n']),
        ch = '\n' ∨ isPyLineBreak ch = false := by
      intro ch hch
      rcases List.mem_append.1 hch with hch | hch
      · exact hmarker_nb ch hch
      · exact hcontent_nb ch hch
    rw [show serialize_file_blocks ((p, c) :: rest)
        = "### FILE: " ++ p ++ "\n" ++ c ++ "\n" ++ serialize_file_blocks rest from rfl]
    rw [pySplitlines]
    rw [show ("### FILE: " ++ p ++ "\n" ++ c ++ "\n" ++ serialize_file_blocks rest).data
        = ((("### FILE: " ++ p).data ++ ['\n']) ++ (c.data ++ ['\n']))
            ++ (serialize_file_blocks rest).data from by
      simp [String.data_append, List.append_assoc]]
    rw [splitlines_append _ _ [] hA_nb (by
      rw [show ((("### FILE: " ++ p).data ++ ['\n']) ++ (c.data ++ ['\n']))
          = ((("### FILE: " ++ p).data ++ ['\n']) ++ c.data) ++ ['\n'] from by
        simp [List.append_assoc]]
      exact List.getLast?_concat _)]
    rw [splitlines_append _ _ [] hmarker_nb (List.getLast?_concat _)]
    rw [splitlines_single_line _ [] (by
      intro ch hch
      rw [show ("### FILE: " ++ p).data
          = (['#', '#', '#', ' ', 'F', 'I', 'L', 'E', ':', ' '] : List Char)
            ++ p.data from rfl] at hch
      rcases List.mem_append.1 hch with hch | hch
      · exact marker_prefix_no_break ch hch
      · exact hpb ch hch)]
    rw [List.map_append, List.map_append]
    rw [show ([([] : List Char).reverse ++ ("### FILE: " ++ p).data].map String.mk)
        = ["### FILE: " ++ p] from rfl]
    rw [show serialized_lines ((p, c) :: rest)
        = ("### FILE: " ++ p) :: (pySplitlines (c ++ "\n") ++ serialized_lines rest) from by
      rw [serialized_lines, List.flatMap_cons]
      rfl]
    rw [← ih hwf']
    rw [pySplitlines, pySplitlines]
    rw [show (c ++ "\n").data = c.data ++ ['\n'] from rfl]
    rfl

theorem parse_lines_serialized (entries : List (String × String)) :
    ∀ (cur : String) (buf : List String) (files : List (String × String)),
    (∀ e ∈ entries, c7_wf_entry e) →
    cur ≠ "" →
    (∀ k ∈ files.map Prod.fst, k ≠ cur ∧ k ∉ entries.map Prod.fst) →
    (cur :: entries.map Prod.fst).Nodup →
    parse_lines (serialized_lines entries) (some cur) buf files
      = (files ++ [(cur, strip_newlines (String.intercalate "\n" buf.reverse))])
          ++ entries.map (fun e => (e.1, strip_newlines e.2)) := by
  induction entries with
  | nil =>
    intro cur buf files _ hcur hfresh _
    rw [serialized_lines, List.flatMap_nil]
    rw [parse_lines.eq_def]
    simp only []
    rw [if_pos hcur]
    rw [upsert_fresh _ _ _ (fun hmem => (hfresh cur hmem).1 rfl)]
    rw [List.map_nil, List.append_nil]
  | cons e rest ih =>
    intro cur buf files hwf hcur hfresh hnodup
    obtain ⟨p, c⟩ := e
    obtain ⟨hp1, hph, hpl, hpb, hcb, hcm⟩ := hwf (p, c) (List.mem_cons_self _ _)
    have hwf' : ∀ x ∈ rest, c7_wf_entry x := fun x hx => hwf x (List.mem_cons_of_mem _ hx)
    have hhh := head_space_of_wf hph
    have hll : ∀ ch, p.data.getLast? = some ch → pyIsSpaceChar ch = false := by
      intro ch hch
      rw [hch] at hpl
      simpa using hpl
    rw [show serialized_lines ((p, c) :: rest)
        = ("### FILE: " ++ p) :: (pySplitlines (c ++ "\n") ++ serialized_lines rest) from by
      rw [serialized_lines, List.flatMap_cons]
      rfl]
    rw [parse_lines.eq_def]
    simp only []
    rw [marker_line_strip p hp1 hhh hll, marker_line_match p hp1 hhh hll]
    simp only []
    rw [if_pos hcur]
    rw [upsert_fresh _ _ _ (fun hmem => (hfresh cur hmem).1 rfl)]
    rw [parse_lines_content _ hcm]
    rw [List.append_nil]
    have hnodup' : (p :: rest.map Prod.fst).Nodup := by
      rw [List.map_cons] at hnodup
      exact hnodup.of_cons
    have hcurfresh : cur ∉ (p :: rest.map Prod.fst) := by
      rw [List.map_cons] at hnodup
      exact (List.nodup_cons.1 hnodup).1
    have hfresh' : ∀ k ∈ (files ++ [(cur,
        strip_newlines (String.intercalate "\n" buf.reverse))]).map Prod.fst,
        k ≠ p ∧ k ∉ rest.map Prod.fst := by
      intro k hk
      rw [List.map_append, List.mem_append] at hk
      rcases hk with hk | hk
      · have h2 := (hfresh k hk).2
        rw [List.map_cons, List.mem_cons, not_or] at h2
        exact h2
      · rw [show ([(cur, strip_newlines (String.intercalate "\n" buf.reverse))].map
            Prod.fst) = [cur] from rfl, List.mem_singleton] at hk
        subst hk
        rw [List.mem_cons, not_or] at hcurfresh
        exact hcurfresh
    rw [ih p ((pySplitlines (c ++ "\n")).reverse) _ hwf' hp1 hfresh' hnodup']
    rw [List.reverse_reverse]
    rw [content_value c hcb]
    rw [List.map_cons]
    simp [List.append_assoc]

/-- C7 (amended): for a mapping whose paths are non-empty, free of
surrounding whitespace and of line-break characters, and pairwise
distinct, and whose content values use only the newline as line break
and contain no line matching the file-marker convention, serializing
with the "### FILE:" convention and re-parsing returns the mapping with
each content trimmed of leading and trailing newlines. Without these
conditions the round trip can fail (see the counterexample, where a
content line matches the marker convention). -/
theorem claim_C7 (entries : List (String × String))
    (hwf : ∀ e ∈ entries, c7_wf_entry e)
    (hnodup : (entries.map Prod.fst).Nodup) :
    parse_file_blocks (serialize_file_blocks entries)
      = entries.map (fun e => (e.1, strip_newlines e.2)) := by
  rw [parse_file_blocks, serialize_lines entries hwf]
  cases entries with
  | nil => rfl
  | cons e rest =>
    obtain ⟨p, c⟩ := e
    obtain ⟨hp1, hph, hpl, hpb, hcb, hcm⟩ := hwf (p, c) (List.mem_cons_self _ _)
    have hwf' : ∀ x ∈ rest, c7_wf_entry x := fun x hx => hwf x (List.mem_cons_of_mem _ hx)
    have hhh := head_space_of_wf hph
    have hll : ∀ ch, p.data.getLast? = some ch → pyIsSpaceChar ch = false := by
      intro ch hch
      rw [hch] at hpl
      simpa using hpl
    rw [show serialized_lines ((p, c) :: rest)
        = ("### FILE: " ++ p) :: (pySplitlines (c ++ "\n") ++ serialized_lines rest) from by
      rw [serialized_lines, List.flatMap_cons]
      rfl]
    rw [parse_lines.eq_def]
    simp only []
    rw [marker_line_strip p hp1 hhh hll, marker_line_match p hp1 hhh hll]
    simp only []
    rw [parse_lines_content _ hcm]
    rw [List.append_nil]
    have hnodup' : (p :: rest.map Prod.fst).Nodup := by
      rw [List.map_cons] at hnodup
      exact hnodup
    rw [parse_lines_serialized rest p ((pySplitlines (c ++ "\n")).reverse) [] hwf' hp1
      (by intro k hk; exact absurd hk (by simp)) hnodup']
    rw [List.reverse_reverse]
    rw [content_value c hcb]
    rw [List.map_cons]
    rfl

/-- C7 witness: a concrete two-entry mapping satisfying the
well-formedness conditions round-trips. -/
theorem claim_C7_witness :
    (∀ e ∈ ([("a.txt", "hello\nworld"), ("dir/b.txt", "data")] : List (String × String)),
      c7_wf_entry e)
    ∧ ((([("a.txt", "hello\nworld"), ("dir/b.txt", "data")] : List (String × String)).map
        Prod.fst).Nodup)
    ∧ parse_file_blocks
        (serialize_file_blocks [("a.txt", "hello\nworld"), ("dir/b.txt", "data")])
      = [("a.txt", strip_newlines "hello\nworld"), ("dir/b.txt", strip_newlines "data")] :=
  ⟨by decide, by decide, claim_C7 _ (by decide) (by decide)⟩

/-! ## Hour-per-class inference (utils/plan_params.py, ai_service.py) -/

/-- The numeric fields of a normalized schedule item as produced by
normalize_schedule_item (utils/plan_params.py lines 73-86). The title
and tasks fields are plain text, feed no arithmetic in this development,
and are omitted. -/
structure NormItem where
  week : Option Int
  order : Option Int
  hour : Option Int

/-- normalize_schedule_item, numeric fields: week from _safe_int of the
week key; order from _safe_int of the or-chain order / sequence /
lesson_number; hour from _safe_int of the or-chain hour / hours / 学时. -/
def normalize_schedule_item (item : JObj) : NormItem :=
  { week := safe_int (dictGet item "week")
  , order := safe_int (pyOr (pyOr (dictGet item "order") (dictGet item "sequence"))
      (dictGet item "lesson_number"))
  , hour := safe_int (pyOr (pyOr (dictGet item "hour") (dictGet item "hours"))
      (dictGet item "学时")) }

/-- The hours list of infer_hour_per_class (line 90): the hour values of
the schedule items that are ints greater than 0. On normalized items the
hour entry is None or an int, never a bool, so the isinstance(int) test
is the Option being some. -/
def positive_hours (schedule : List NormItem) : List Int :=
  schedule.filterMap (fun item =>
    match item.hour with
    | some h => if 0 < h then some h else none
    | none => none)

/-- max(set(hours), key=hours.count) (line 93): among the distinct
values, the first one of maximal multiplicity in iteration order.
CPython iterates the set in a hash-determined, implementation-defined
order; we fold over the deduplicated list, and prove only order-
independent facts (the result is a value of maximal multiplicity). -/
def mode_of (hours : List Int) : Option Int :=
  hours.dedup.foldl
    (fun best x =>
      match best with
      | none => some x
      | some b => if hours.count b < hours.count x then some x else some b)
    none

/-- infer_hour_per_class (lines 89-94): the mode of the positive per-item
hours when any exist, otherwise the fallback if it is a positive int,
otherwise None. -/
def infer_hour_per_class (schedule : List NormItem) (fallback : Option Int) : Option Int :=
  match mode_of (positive_hours schedule) with
  | some m => some m
  | none =>
    match fallback with
    | some f => if 0 < f then some f else none
    | none => none

/-- The sort key of build_plan_params_from_schedule line 104:
item.get("order") or 0. A 0 order is falsy and yields 0 again, so the
key is the order value with None as 0. -/
def orderKey (item : NormItem) : Int :=
  match item.order with
  | some n => n
  | none => 0

/-- One step of a stable insertion sort by orderKey: the new element
goes after every element of strictly smaller key and before the rest,
so equal keys keep their original relative order, as Python's stable
list.sort does. -/
def insertByOrder (x : NormItem) : List NormItem → List NormItem
  | [] => [x]
  | y :: ys => if orderKey y < orderKey x then y :: insertByOrder x ys else x :: y :: ys

/-- normalized.sort(key=...) of line 104, as a stable structural sort. -/
def sortByOrder (l : List NormItem) : List NormItem := l.foldr insertByOrder []

/-- The hour_per_class component of build_plan_params_from_schedule
(lines 102-114): normalize the dict items, keep the ones with an order,
sort by order, and run infer_hour_per_class with the supplied value as
fallback. -/
def build_plan_hour_per_class (schedule : List JVal) (hour_per_class : Option Int) :
    Option Int :=
  let normalized := schedule.filterMap (fun it =>
    match it with
    | JVal.obj fields => some (normalize_schedule_item fields)
    | _ => none)
  let kept := normalized.filter (fun it => it.order.isSome)
  infer_hour_per_class (sortByOrder kept) hour_per_class

/-- Python round(n / d) for d > 0 on the exact rational value: round
half to even (banker's rounding). The source divides floats; for the
magnitudes of course hours the float value is exact enough that the
real-arithmetic rounding is the observed one. -/
def round_half_even (n d : Int) : Int :=
  let q := n / d
  let r := n % d
  if 2 * r < d then q
  else if d < 2 * r then q + 1
  else if q % 2 = 0 then q else q + 1

/-- Spec-side ceiling of n / d for positive d, for comparison with the
round the source actually performs. -/
def ceil_div_spec (n d : Int) : Int := (n + d - 1) / d

/-- The tail of parse_teaching_plan_params (ai_service.py lines 389-405)
restricted to the hour_per_class dataflow: reject a non-object result,
reject a missing, non-list or empty schedule, keep a positive int
hour_per_class from the response, otherwise fall back to
max(1, round(course_total_hours / len(schedule))) when a positive total
is known, else None; then defer to the schedule-based
inference. -/
def parse_teaching_plan_hour (data : JVal) (course_total_hours : Option Int) :
    Except String (Option Int) :=
  match data with
  | JVal.obj fields =>
    match dictGet fields "schedule" with
    | JVal.list schedule =>
      if pyTruthy (JVal.list schedule) then
        let fb : Option Int :=
          match course_total_hours with
          | some t =>
            if 0 < t then some (max 1 (round_half_even t (schedule.length : Int))) else none
          | none => none
        let hpc : Option Int :=
          match pyIntOf (dictGet fields "hour_per_class") with
          | some n => if 0 < n then some n else fb
          | none => fb
        Except.ok (build_plan_hour_per_class schedule hpc)
      else Except.error "未提取到课次列表"
    | _ => Except.error "未提取到课次列表"
  | _ => Except.error "解析结果不是 JSON 对象"

theorem mode_fold_best (hours : List Int) (cands : List Int) :
    ∀ (b : Int), b ∈ hours → (∀ x ∈ cands, x ∈ hours) →
    ∃ m, cands.foldl
        (fun best x =>
          match best with
          | none => some x
          | some b => if hours.count b < hours.count x then some x else some b)
        (some b) = some m
      ∧ m ∈ hours
      ∧ hours.count b ≤ hours.count m
      ∧ ∀ x ∈ cands, hours.count x ≤ hours.count m := by
  induction cands with
  | nil =>
    intro b hb _
    exact ⟨b, rfl, hb, le_refl _, fun x hx => absurd hx (List.not_mem_nil x)⟩
  | cons c cs ih =>
    intro b hb hc
    have hcmem : c ∈ hours := hc c (List.mem_cons_self _ _)
    have hcs : ∀ x ∈ cs, x ∈ hours := fun x hx => hc x (List.mem_cons_of_mem _ hx)
    rw [List.foldl_cons]
    simp only []
    by_cases hlt : hours.count b < hours.count c
    · rw [if_pos hlt]
      obtain ⟨m, hm1, hm2, hm3, hm4⟩ := ih c hcmem hcs
      refine ⟨m, hm1, hm2, le_trans (le_of_lt hlt) hm3, ?_⟩
      intro x hx
      rcases List.mem_cons.1 hx with hx | hx
      · subst hx; exact hm3
      · exact hm4 x hx
    · rw [if_neg hlt]
      obtain ⟨m, hm1, hm2, hm3, hm4⟩ := ih b hb hcs
      refine ⟨m, hm1, hm2, hm3, ?_⟩
      intro x hx
      rcases List.mem_cons.1 hx with hx | hx
      · subst hx; exact le_trans (Nat.le_of_not_lt hlt) hm3
      · exact hm4 x hx

theorem mode_of_spec (hours : List Int) (h : hours ≠ []) :
    ∃ m, mode_of hours = some m ∧ m ∈ hours
      ∧ ∀ x ∈ hours, hours.count x ≤ hours.count m := by
  cases hdd : hours.dedup with
  | nil => exact absurd ((List.dedup_eq_nil _).1 hdd) h
  | cons d ds =>
    have hdmem : d ∈ hours := by
      rw [← List.mem_dedup, hdd]
      exact List.mem_cons_self _ _
    have hdsmem : ∀ x ∈ ds, x ∈ hours := by
      intro x hx
      rw [← List.mem_dedup, hdd]
      exact List.mem_cons_of_mem _ hx
    obtain ⟨m, hm1, hm2, hm3, hm4⟩ := mode_fold_best hours ds d hdmem hdsmem
    refine ⟨m, ?_, hm2, ?_⟩
    · rw [mode_of, hdd, List.foldl_cons]
      simp only []
      exact hm1
    · intro x hx
      have hxd : x ∈ hours.dedup := List.mem_dedup.2 hx
      rw [hdd] at hxd
      rcases List.mem_cons.1 hxd with hx' | hx'
      · subst hx'; exact hm3
      · exact hm4 x hx'

/-- C9 (amended): when hour_per_class is not supplied as a positive
integer: (1) if the schedule items carry positive integer hour values,
the inferred hour_per_class is one of those values and attains the
maximal multiplicity (the statistical mode; ties are broken by CPython's
implementation-defined set iteration order); (2) if no positive per-item
hours exist, a supplied positive fallback is returned as is; (3) in
parse_teaching_plan_params, when the response has no positive integer
hour_per_class but a positive course_total_hours is known, the fallback
handed to the inference is max 1 (round-half-to-even of
total / len(schedule)) — Python's round, not the ceiling the claim
states; the counterexample separates the two. -/
theorem claim_C9 :
    (∀ (schedule : List NormItem) (fallback : Option Int),
      positive_hours schedule ≠ [] →
      ∃ m, infer_hour_per_class schedule fallback = some m
        ∧ m ∈ positive_hours schedule
        ∧ ∀ x ∈ positive_hours schedule,
            (positive_hours schedule).count x ≤ (positive_hours schedule).count m)
    ∧ (∀ (schedule : List NormItem) (f : Int),
      positive_hours schedule = [] → 0 < f →
      infer_hour_per_class schedule (some f) = some f)
    ∧ (∀ (fields : JObj) (schedule : List JVal) (t : Int),
      dictGet fields "schedule" = JVal.list schedule →
      schedule ≠ [] →
      pyIntOf (dictGet fields "hour_per_class") = none →
      0 < t →
      parse_teaching_plan_hour (JVal.obj fields) (some t)
        = Except.ok (build_plan_hour_per_class schedule
            (some (max 1 (round_half_even t (schedule.length : Int)))))) := by
  refine ⟨?_, ?_, ?_⟩
  · intro schedule fallback hne
    obtain ⟨m, hm1, hm2, hm3⟩ := mode_of_spec (positive_hours schedule) hne
    refine ⟨m, ?_, hm2, hm3⟩
    rw [infer_hour_per_class.eq_def, hm1]
  · intro schedule f hempty hf
    rw [infer_hour_per_class.eq_def, hempty]
    rw [show mode_of [] = none from rfl]
    simp only []
    rw [if_pos hf]
  · intro fields schedule t hsched hne hno hpos
    cases schedule with
    | nil => exact absurd rfl hne
    | cons a as =>
      simp only [parse_teaching_plan_hour]
      rw [hsched]
      simp only []
      rw [if_pos (show pyTruthy (JVal.list (a :: as)) = true from rfl)]
      rw [hno]
      simp only []
      rw [if_pos hpos]

/-- C9 witness: a schedule with hours 4, 4, 2 infers a maximal-count
positive hour; a schedule without hours returns the positive fallback;
and the parse fallback is the max-1-clamped rounded quotient. -/
theorem claim_C9_witness :
    (∃ m, infer_hour_per_class
        [⟨some 1, some 1, some 4⟩, ⟨some 1, some 2, some 4⟩, ⟨some 2, some 3, some 2⟩]
        none = some m
      ∧ m ∈ positive_hours
          [⟨some 1, some 1, some 4⟩, ⟨some 1, some 2, some 4⟩, ⟨some 2, some 3, some 2⟩]
      ∧ ∀ x ∈ positive_hours
          [⟨some 1, some 1, some 4⟩, ⟨some 1, some 2, some 4⟩, ⟨some 2, some 3, some 2⟩],
          (positive_hours
            [⟨some 1, some 1, some 4⟩, ⟨some 1, some 2, some 4⟩,
              ⟨some 2, some 3, some 2⟩]).count x
            ≤ (positive_hours
                [⟨some 1, some 1, some 4⟩, ⟨some 1, some 2, some 4⟩,
                  ⟨some 2, some 3, some 2⟩]).count m)
    ∧ infer_hour_per_class [⟨some 1, some 1, none⟩] (some 3) = some 3
    ∧ parse_teaching_plan_hour
        (JVal.obj [("schedule", JVal.list
          [JVal.obj [("order", JVal.int 1)], JVal.obj [("order", JVal.int 2)]])])
        (some 5)
      = Except.ok (build_plan_hour_per_class
          [JVal.obj [("order", JVal.int 1)], JVal.obj [("order", JVal.int 2)]]
          (some (max 1 (round_half_even 5 2)))) :=
  ⟨claim_C9.1 _ none (by decide),
   claim_C9.2.1 _ 3 (by decide) (by decide),
   claim_C9.2.2 _ _ 5 rfl (List.cons_ne_nil _ _) rfl (by decide)⟩

/-- C9 counterexample: two schedule items without hours and a known
total of 5 hours make the source compute max(1, round(5 / 2)) = 2
(round half to even), whereas the claimed ceil(5 / 2) is 3. -/
theorem claim_C9_counterexample :
    parse_teaching_plan_hour
      (JVal.obj [("schedule", JVal.list
        [JVal.obj [("order", JVal.int 1)], JVal.obj [("order", JVal.int 2)]])])
      (some 5)
      = Except.ok (some 2)
    ∧ ceil_div_spec 5 2 = 3 := ⟨rfl, rfl⟩
